import Mathlib

/-!
Verification development for the performance-analytics engine in
`generic_tools.py` (functions `generate_top_level_summary` and
`get_periodic_performance_summary`) working over PnL series produced in the
shape of `random_pnl_generator.py` (a date-indexed column of cumulative
percentage returns).

Embedding conventions:

* float64 values are modelled as exact rationals (`ℚ`).  All concrete claims
  checked here use values far from binary-rounding boundaries, so the exact
  model and the float computation agree on every reported figure discussed.
* The one place where IEEE special values can actually arise in the source —
  the aggregate drawdown path, `portfolio_values / running_max - 1.0`, which
  divides by a running maximum that can be zero — is modelled with the type
  `Fx` (`nan`, `ninf`, `fin q`, `pinf`), reproducing IEEE division by zero,
  the propagation through subtraction and scaling, and pandas' NaN-skipping
  `Series.min`.
* Square roots (std, annualized volatility, Sharpe, skewness) are modelled
  symbolically: a value `a * sqrt b` (`a b : ℚ`, `b ≥ 0` at every use site)
  is the pair `QR.mk a b`.  Comparison with rationals and Python's
  round-half-even on such values are exact and computable (implemented via
  integer square roots), so records stay fully evaluable.
* Python's `round(x, n)` is round-half-to-even at `n` decimal digits
  (`pythonRound` on rationals, `QR.round` on `a * sqrt b` values).
* `pandas.DataFrame` is modelled as a list of named columns, each column an
  ordered list of `(date, value)` pairs with dates as integers; the pandas
  invariant that all columns share one index makes this representation
  exact for the single column each function reads.
* `Series.resample(period)` is modelled by an abstract monotone key function
  `k : ℤ → ℤ` mapping a date to its period bin; pandas generates one bin for
  every key between the key of the first and the key of the last index
  entry, and groups each sample into the bin of its key.
* Raising `ValueError` is modelled by `Except.error`.
-/

/-! ## Python round-half-even on rationals -/

/-- Round a rational to the nearest integer, ties to the even integer
(the rounding Python's `round` applies to binary floats, transported to
exact rationals). -/
def roundHalfEven (x : ℚ) : ℤ :=
  if x - (⌊x⌋ : ℚ) < 1/2 then ⌊x⌋
  else if 1/2 < x - (⌊x⌋ : ℚ) then ⌊x⌋ + 1
  else if Even ⌊x⌋ then ⌊x⌋ else ⌊x⌋ + 1

/-- Python's `round(x, n)` for a nonnegative digit count `n`, on exact
rationals. -/
def pythonRound (n : ℕ) (x : ℚ) : ℚ :=
  (roundHalfEven (x * (10 : ℚ) ^ n) : ℚ) / (10 : ℚ) ^ n

theorem roundHalfEven_intCast (k : ℤ) : roundHalfEven (k : ℚ) = k := by
  simp [roundHalfEven]

theorem roundHalfEven_le_floor_add_one (x : ℚ) :
    roundHalfEven x ≤ ⌊x⌋ + 1 := by
  unfold roundHalfEven
  split_ifs <;> omega

theorem floor_le_roundHalfEven (x : ℚ) : ⌊x⌋ ≤ roundHalfEven x := by
  unfold roundHalfEven
  split_ifs <;> omega

theorem roundHalfEven_nonpos {x : ℚ} (hx : x ≤ 0) : roundHalfEven x ≤ 0 := by
  have hf : ⌊x⌋ ≤ 0 := by
    exact_mod_cast Int.floor_le_floor hx |>.trans_eq (by norm_num)
  unfold roundHalfEven
  split_ifs with h1 h2 h3
  · exact hf
  · -- the fractional part is above 1/2, so the floor is at most -1
    rcases lt_or_eq_of_le hf with hlt | heq
    · omega
    · exfalso
      have hxf : x - (⌊x⌋ : ℚ) ≤ 0 := by
        rw [heq]; push_cast; linarith
      linarith
  · exact hf
  · rcases lt_or_eq_of_le hf with hlt | heq
    · omega
    · exfalso
      have hxf : x - (⌊x⌋ : ℚ) ≤ 0 := by
        rw [heq]; push_cast; linarith
      push_neg at h1
      linarith

theorem roundHalfEven_nonneg {x : ℚ} (hx : 0 ≤ x) : 0 ≤ roundHalfEven x := by
  have hf : (0 : ℤ) ≤ ⌊x⌋ := Int.floor_nonneg.mpr hx
  unfold roundHalfEven
  split_ifs <;> omega

theorem roundHalfEven_mono {x y : ℚ} (hxy : x ≤ y) :
    roundHalfEven x ≤ roundHalfEven y := by
  have hff : ⌊x⌋ ≤ ⌊y⌋ := Int.floor_le_floor hxy
  rcases lt_or_eq_of_le hff with hlt | heq
  · calc roundHalfEven x ≤ ⌊x⌋ + 1 := roundHalfEven_le_floor_add_one x
      _ ≤ ⌊y⌋ := by omega
      _ ≤ roundHalfEven y := floor_le_roundHalfEven y
  · have hr : x - (⌊x⌋ : ℚ) ≤ y - (⌊y⌋ : ℚ) := by
      rw [← heq]; linarith
    unfold roundHalfEven
    rw [← heq]
    split_ifs <;> first | omega | (exfalso; linarith)

theorem pythonRound_zero (n : ℕ) : pythonRound n 0 = 0 := by
  simp [pythonRound, roundHalfEven]

theorem pythonRound_nonpos {n : ℕ} {x : ℚ} (hx : x ≤ 0) :
    pythonRound n x ≤ 0 := by
  unfold pythonRound
  have h10 : (0:ℚ) < (10 : ℚ) ^ n := by positivity
  have hm : x * (10 : ℚ) ^ n ≤ 0 := mul_nonpos_of_nonpos_of_nonneg hx (le_of_lt h10)
  have := roundHalfEven_nonpos hm
  have hc : ((roundHalfEven (x * (10 : ℚ) ^ n)) : ℚ) ≤ 0 := by exact_mod_cast this
  exact div_nonpos_of_nonpos_of_nonneg hc (le_of_lt h10)

theorem pythonRound_nonneg {n : ℕ} {x : ℚ} (hx : 0 ≤ x) :
    0 ≤ pythonRound n x := by
  unfold pythonRound
  have h10 : (0:ℚ) < (10 : ℚ) ^ n := by positivity
  have hm : 0 ≤ x * (10 : ℚ) ^ n := mul_nonneg hx (le_of_lt h10)
  have := roundHalfEven_nonneg hm
  have hc : (0:ℚ) ≤ ((roundHalfEven (x * (10 : ℚ) ^ n)) : ℚ) := by exact_mod_cast this
  positivity

theorem pythonRound_mono {n : ℕ} {x y : ℚ} (hxy : x ≤ y) :
    pythonRound n x ≤ pythonRound n y := by
  unfold pythonRound
  have h10 : (0:ℚ) < (10 : ℚ) ^ n := by positivity
  have hm : x * (10 : ℚ) ^ n ≤ y * (10 : ℚ) ^ n :=
    mul_le_mul_of_nonneg_right hxy (le_of_lt h10)
  have := roundHalfEven_mono hm
  have hc : ((roundHalfEven (x * (10 : ℚ) ^ n)) : ℚ) ≤
      ((roundHalfEven (y * (10 : ℚ) ^ n)) : ℚ) := by exact_mod_cast this
  gcongr

theorem pythonRound_intCast (n : ℕ) (k : ℤ) :
    pythonRound n ((k : ℚ) / (10 : ℚ) ^ n) = (k : ℚ) / (10 : ℚ) ^ n := by
  unfold pythonRound
  have h10 : ((10 : ℚ) ^ n) ≠ 0 := by positivity
  rw [div_mul_cancel₀ _ h10, roundHalfEven_intCast]

/-! ## IEEE surrogate values for the aggregate drawdown path

`portfolio_values / running_max - 1.0` is the only arithmetic in the source
whose float semantics can leave the finite range: the running maximum can be
zero.  `Fx` reproduces exactly the values reachable there. -/

/-- A float64 value: NaN, a signed infinity, or an exact finite value. -/
inductive Fx where
  | nan : Fx
  | ninf : Fx
  | fin : ℚ → Fx
  | pinf : Fx
deriving DecidableEq

/-- IEEE division of finite float values: division by zero yields NaN for
`0/0` and a signed infinity otherwise. -/
def fxDiv (p m : ℚ) : Fx :=
  if m ≠ 0 then .fin (p / m)
  else if p = 0 then .nan
  else if 0 < p then .pinf
  else .ninf

/-- Subtracting the constant 1 (`... - 1.0`); NaN and infinities propagate. -/
def Fx.sub1 : Fx → Fx
  | .nan => .nan
  | .ninf => .ninf
  | .pinf => .pinf
  | .fin q => .fin (q - 1)

/-- Multiplying by the positive constant 100 (`... * 100.0`). -/
def Fx.mul100 : Fx → Fx
  | .nan => .nan
  | .ninf => .ninf
  | .pinf => .pinf
  | .fin q => .fin (q * 100)

/-- Python `round(x, 2)`: NaN and infinities pass through unchanged. -/
def Fx.round2 : Fx → Fx
  | .nan => .nan
  | .ninf => .ninf
  | .pinf => .pinf
  | .fin q => .fin (pythonRound 2 q)

/-- One step of pandas `Series.min(skipna=True)`: NaN operands are skipped,
otherwise the smaller value (with `ninf < fin _ < pinf`) is kept. -/
def fxMinStep (acc x : Fx) : Fx :=
  match acc, x with
  | .nan, y => y
  | a, .nan => a
  | .ninf, _ => .ninf
  | _, .ninf => .ninf
  | .fin a, .fin b => .fin (min a b)
  | .fin a, .pinf => .fin a
  | .pinf, y => y

/-- pandas `Series.min()` (default `skipna=True`): minimum over the non-NaN
entries, NaN when every entry is NaN or the series is empty. -/
def fxMinSkipna (l : List Fx) : Fx := l.foldl fxMinStep .nan

/-- IEEE `≤` on float values: any comparison against NaN is false. -/
def Fx.le : Fx → Fx → Bool
  | .nan, _ => false
  | _, .nan => false
  | .ninf, _ => true
  | _, .ninf => false
  | .fin a, .fin b => decide (a ≤ b)
  | .fin _, .pinf => true
  | .pinf, .pinf => true
  | .pinf, .fin _ => false

/-! ## Symbolic a·√b values

Every non-rational float the source produces is of the form `a·√b` with
rational `a`, `b` and `0 ≤ b`: standard deviations are `√variance`, the
annualization factor is `√252`, and the bias-corrected skewness is
`(n·m3/((n−2)·m2²))·√((n−1)·m2)`.  Comparisons and Python rounding of such
values are exact and computable. -/

/-- The value `a * sqrt b` (all use sites have `0 ≤ b`). -/
structure QR where
  a : ℚ
  b : ℚ
deriving DecidableEq

/-- The float literal `0.0` as a `QR` value. -/
def QR.zero : QR := ⟨0, 0⟩

/-- Multiplication by a rational constant: `c * (a·√b) = (c·a)·√b`. -/
def QR.scaleQ (c : ℚ) (x : QR) : QR := ⟨c * x.a, x.b⟩

/-- Multiplication by `√c` (for `0 ≤ c`): `(a·√b)·√c = a·√(b·c)`. -/
def QR.mulSqrt (x : QR) (c : ℚ) : QR := ⟨x.a, x.b * c⟩

/-- The source guards `excess_vol > 0` and `annualized_vol > 0.0`; for a
value `a·√b` this holds exactly when `0 < a` and `0 < b`. -/
def QR.pos (x : QR) : Bool := decide (0 < x.a) && decide (0 < x.b)

/-- Floor of `√t` for a rational `t` (0 on negative input): with `t = num/den`,
`√t = √(num·den)/den`, and `⌊⌊√(num·den)⌋ / den⌋` equals `⌊√t⌋`. -/
def sqrtFloorQ (t : ℚ) : ℤ :=
  (Nat.sqrt (t.num * (t.den : ℤ)).toNat : ℤ) / (t.den : ℤ)

/-- Exact three-way comparison of the value `a·√b` with a rational `c`,
via squaring. -/
def QR.cmp (x : QR) (c : ℚ) : Ordering :=
  if x.a = 0 ∨ x.b ≤ 0 then compare 0 c
  else if 0 < x.a then
    if c < 0 then .gt else compare (x.a ^ 2 * x.b) (c ^ 2)
  else
    if 0 ≤ c then .lt else compare (c ^ 2) (x.a ^ 2 * x.b)

/-- Floor of `a·√b`, exact: for `0 < a` this is `⌊√(a²·b)⌋`, for `a < 0` it is
`-⌈√(a²·b)⌉`. -/
def QR.floor (x : QR) : ℤ :=
  if x.a = 0 ∨ x.b ≤ 0 then 0
  else if 0 < x.a then sqrtFloorQ (x.a ^ 2 * x.b)
  else
    if ((sqrtFloorQ (x.a ^ 2 * x.b) : ℚ)) ^ 2 = x.a ^ 2 * x.b
    then -(sqrtFloorQ (x.a ^ 2 * x.b))
    else -(sqrtFloorQ (x.a ^ 2 * x.b)) - 1

/-- Round the value `a·√b` to the nearest integer, ties to even. -/
def QR.rhe (x : QR) : ℤ :=
  match x.cmp ((x.floor : ℚ) + 1/2) with
  | .lt => x.floor
  | .gt => x.floor + 1
  | .eq => if Even x.floor then x.floor else x.floor + 1

/-- Python `round(v, n)` applied to the float value `v = a·√b`. -/
def QR.round (n : ℕ) (x : QR) : ℚ :=
  ((QR.rhe ⟨x.a * (10 : ℚ) ^ n, x.b⟩ : ℤ) : ℚ) / (10 : ℚ) ^ n

theorem QR.round_zero_a (n : ℕ) (b : ℚ) : QR.round n ⟨0, b⟩ = 0 := by
  have hfl : QR.floor ⟨(0 : ℚ), b⟩ = 0 := by
    unfold QR.floor
    simp
  have hcmp : QR.cmp ⟨(0 : ℚ) * (10 : ℚ) ^ n, b⟩
      ((QR.floor ⟨(0 : ℚ) * (10 : ℚ) ^ n, b⟩ : ℚ) + 1/2) = .lt := by
    rw [show ((0 : ℚ) * (10 : ℚ) ^ n) = 0 by ring]
    rw [hfl]
    unfold QR.cmp
    simp [compare_lt_iff_lt]
  unfold QR.round QR.rhe
  rw [show ((0 : ℚ) * (10 : ℚ) ^ n) = 0 by ring] at hcmp ⊢
  rw [hcmp, hfl]
  norm_num

/-- Sanity check tying the decidable guard to the real value: `a·√b > 0`
iff `0 < a` and `0 < b` (for `b ≤ 0`, `Real.sqrt` of the cast is 0). -/
theorem QR.pos_iff_toReal (x : QR) :
    x.pos = true ↔ 0 < (x.a : ℝ) * Real.sqrt (x.b : ℝ) := by
  unfold QR.pos
  constructor
  · intro h
    simp only [Bool.and_eq_true, decide_eq_true_eq] at h
    have hb : (0 : ℝ) < (x.b : ℝ) := by exact_mod_cast h.2
    have ha : (0 : ℝ) < (x.a : ℝ) := by exact_mod_cast h.1
    exact mul_pos ha (Real.sqrt_pos.mpr hb)
  · intro h
    simp only [Bool.and_eq_true, decide_eq_true_eq]
    by_cases hb : (0 : ℝ) < (x.b : ℝ)
    · have ha : (0 : ℝ) < (x.a : ℝ) := by
        by_contra hc
        push_neg at hc
        have : (x.a : ℝ) * Real.sqrt (x.b : ℝ) ≤ 0 :=
          mul_nonpos_of_nonpos_of_nonneg hc (Real.sqrt_nonneg _)
        linarith
      exact ⟨by exact_mod_cast ha, by exact_mod_cast hb⟩
    · exfalso
      push_neg at hb
      have hs : Real.sqrt (x.b : ℝ) = 0 := Real.sqrt_eq_zero'.mpr hb
      rw [hs, mul_zero] at h
      exact lt_irrefl 0 h

/-! ## Series statistics (pandas/scipy semantics on exact rationals) -/

/-- pandas `Series.mean()`; every call site guards against an empty series. -/
def listMean (l : List ℚ) : ℚ := l.sum / (l.length : ℚ)

/-- Sum of `k`-th powers of deviations from the mean: the `m2`, `m3`, `m4`
accumulators of pandas `nanskew`/`nankurt` and scipy's central moments
(scipy divides by `n`; the formulas below absorb that factor). -/
def centralSum (k : ℕ) (l : List ℚ) : ℚ :=
  (l.map (fun x => (x - listMean l) ^ k)).sum

/-- Sample variance with `ddof=1`, i.e. the square of pandas
`Series.std(ddof=1)`; `none` models the NaN returned on fewer than two
samples. -/
def sampleVar (l : List ℚ) : Option ℚ :=
  if l.length < 2 then none
  else some (centralSum 2 l / ((l.length : ℚ) - 1))

/-- pandas `Series.max()` on a NaN-free series (0 on an empty list; every
call site guards against that). -/
def listMax : List ℚ → ℚ
  | [] => 0
  | x :: xs => xs.foldl max x

/-- pandas `Series.min()` on a NaN-free series (0 on an empty list). -/
def listMin : List ℚ → ℚ
  | [] => 0
  | x :: xs => xs.foldl min x

/-- Running sums with a carried accumulator. -/
def cumsumFrom (acc : ℚ) : List ℚ → List ℚ
  | [] => []
  | x :: xs => (acc + x) :: cumsumFrom (acc + x) xs

/-- pandas `Series.cumsum()`. -/
def cumsum (l : List ℚ) : List ℚ := cumsumFrom 0 l

/-- Running maxima with a carried accumulator. -/
def cummaxFrom (m : ℚ) : List ℚ → List ℚ
  | [] => []
  | x :: xs => max m x :: cummaxFrom (max m x) xs

/-- pandas `Series.cummax()`. -/
def cummax : List ℚ → List ℚ
  | [] => []
  | x :: xs => cummaxFrom x (x :: xs)

/-- The expression `series.diff().fillna(series.iloc[0])`: per-step returns with the first
entry set to the first cumulative value.  Both summary functions derive
their return series through this one definition, exactly as both source
functions use the same expression. -/
def dailyReturns : List ℚ → List ℚ
  | [] => []
  | x :: xs => x :: xs.zipWith (· - ·) (x :: xs)

/-- pandas `Series.skew()` (`nanskew`): NaN (`none`) below 3 samples, 0 on
zero dispersion, otherwise the bias-corrected skewness
`n·√(n−1)/(n−2) · m3/m2^(3/2)`, represented as
`(n·m3/((n−2)·m2²))·√((n−1)·m2)`. -/
def pandasSkew (l : List ℚ) : Option QR :=
  if l.length < 3 then none
  else if centralSum 2 l = 0 then some QR.zero
  else some ⟨(l.length : ℚ) * centralSum 3 l /
      (((l.length : ℚ) - 2) * centralSum 2 l ^ 2),
      ((l.length : ℚ) - 1) * centralSum 2 l⟩

/-- pandas `Series.kurtosis()` (`nankurt`: Fisher, bias-corrected): NaN
below 4 samples, 0 on zero denominator, otherwise
`n(n+1)(n−1)·m4 / ((n−2)(n−3)·m2²) − 3(n−1)²/((n−2)(n−3))`. -/
def pandasKurt (l : List ℚ) : Option ℚ :=
  if l.length < 4 then none
  else if ((l.length : ℚ) - 2) * ((l.length : ℚ) - 3) * centralSum 2 l ^ 2 = 0
  then some 0
  else some ((l.length : ℚ) * ((l.length : ℚ) + 1) * ((l.length : ℚ) - 1) *
      centralSum 4 l /
      (((l.length : ℚ) - 2) * ((l.length : ℚ) - 3) * centralSum 2 l ^ 2) -
      3 * ((l.length : ℚ) - 1) ^ 2 /
      (((l.length : ℚ) - 2) * ((l.length : ℚ) - 3)))

/-- scipy `stats.skew(·, bias=False)` as called by the source (only on
buckets with more than 2 samples): NaN (`none`) on zero dispersion,
otherwise the same bias-corrected G1 as pandas. -/
def scipySkew (l : List ℚ) : Option QR :=
  if centralSum 2 l = 0 then none
  else some ⟨(l.length : ℚ) * centralSum 3 l /
      (((l.length : ℚ) - 2) * centralSum 2 l ^ 2),
      ((l.length : ℚ) - 1) * centralSum 2 l⟩

/-- scipy `stats.kurtosis(·, fisher=True, bias=False)` as called by the
source (only on buckets with more than 3 samples): NaN on zero dispersion,
otherwise `G2 = ((n+1)·(n·m4/m2² − 3) + 6)·(n−1)/((n−2)(n−3))`. -/
def scipyKurt (l : List ℚ) : Option ℚ :=
  if centralSum 2 l = 0 then none
  else some ((((l.length : ℚ) + 1) *
      ((l.length : ℚ) * centralSum 4 l / centralSum 2 l ^ 2 - 3) + 6) *
      ((l.length : ℚ) - 1) /
      ((( l.length : ℚ) - 2) * ((l.length : ℚ) - 3)))

/-! ## Data model and the two summary functions -/

/-- The Python exceptions the source can raise on bad input: the explicit
`ValueError`s, and the `IndexError` that `iloc[0]` raises on an empty
series.  The messages below elide the f-string interpolation of the column
name; only the exception class and the fact that a message is carried
matter to the claims. -/
inductive PyError where
  | valueError : String → PyError
  | indexError : String → PyError
deriving DecidableEq

/-- A `pandas.DataFrame` as consumed here: named columns over a shared
date index, each column an ordered list of `(date, value)` pairs (dates
abstracted to integers). -/
structure DataFrame where
  cols : List (String × List (ℤ × ℚ))

/-- The aggregate summary record (`stats` dict of the source); dates are
carried as the integer index values, and a `none` field is a NaN in the
JSON output.  `max_drawdown_pct` is an `Fx` because its computation path
can produce NaN or `-inf`. -/
structure TopLevelSummary where
  trading_days : ℕ
  years : ℚ
  start_date : ℤ
  end_date : ℤ
  initial_capital : ℚ
  final_value : ℚ
  total_pnl : ℚ
  total_return_pct : ℚ
  annualized_return_pct : ℚ
  annualized_volatility_pct : Option ℚ
  sharpe_ratio : ℚ
  max_drawdown_pct : Fx
  win_rate_pct : ℚ
  best_day_pct : ℚ
  worst_day_pct : ℚ
  skewness : Option ℚ
  kurtosis : Option ℚ
deriving DecidableEq

/-- Body of `generate_top_level_summary` after validation (source lines
32–107), on the validated column. -/
def topSummaryOfSeries (s : List (ℤ × ℚ))
    (initial_capital risk_free_rate : ℚ) : TopLevelSummary :=
  let cumulative_returns := s.map Prod.snd
  let trading_days := cumulative_returns.length
  let daily_returns := dailyReturns cumulative_returns
  let years : ℚ := (trading_days : ℚ) / 252
  let total_return_pct := cumulative_returns.getLastD 0 * 100
  let portfolio_values := cumulative_returns.map (fun v => initial_capital * (1 + v))
  let final_value := portfolio_values.getLastD 0
  let total_pnl := final_value - initial_capital
  let mean_daily_return := listMean daily_returns
  let annualized_return := ((1 + mean_daily_return) ^ (252 : ℕ) - 1) * 100
  -- vol_daily·√252·100 = √v·√252·100 = 100·√(v·252)
  let annualized_vol : Option QR :=
    (sampleVar daily_returns).map (fun v => QR.scaleQ 100 (QR.mulSqrt ⟨1, v⟩ 252))
  let rf_daily := risk_free_rate / 252
  let excess_daily := daily_returns.map (fun r => r - rf_daily)
  let excess_vol : Option QR := (sampleVar excess_daily).map (fun v => ⟨1, v⟩)
  -- mean/√v·√252 = mean·√(252/v); `excess_vol > 0` is false for the NaN of
  -- a one-sample std, so the NaN case falls to the `else 0.0` branch too
  let sharpe_ratio : QR :=
    match excess_vol with
    | some v => if v.pos then ⟨listMean excess_daily, 252 / v.b⟩ else QR.zero
    | none => QR.zero
  let running_max := cummax portfolio_values
  let drawdowns := List.zipWith (fun p m => (fxDiv p m).sub1) portfolio_values running_max
  let max_drawdown : Fx := fxMinSkipna drawdowns
  let positive_days := daily_returns.countP (fun r => decide (0 < r))
  let win_rate_pct := (positive_days : ℚ) / (trading_days : ℚ) * 100
  let best_day_pct := listMax daily_returns * 100
  let worst_day_pct := listMin daily_returns * 100
  { trading_days := trading_days
    years := pythonRound 2 years
    start_date := (s.headD (0, 0)).1
    end_date := (s.getLastD (0, 0)).1
    initial_capital := initial_capital
    final_value := pythonRound 2 final_value
    total_pnl := pythonRound 2 total_pnl
    total_return_pct := pythonRound 2 total_return_pct
    annualized_return_pct := pythonRound 2 annualized_return
    annualized_volatility_pct := annualized_vol.map (QR.round 2)
    sharpe_ratio := QR.round 2 sharpe_ratio
    max_drawdown_pct := max_drawdown.mul100.round2
    win_rate_pct := pythonRound 2 win_rate_pct
    best_day_pct := pythonRound 2 best_day_pct
    worst_day_pct := pythonRound 2 worst_day_pct
    skewness := (pandasSkew daily_returns).map (QR.round 2)
    kurtosis := (pandasKurt daily_returns).map (pythonRound 2) }

/-- Function `generate_top_level_summary` (source lines 20–107): validation, then
the record. -/
def generate_top_level_summary (pnl_data : DataFrame) (pnl_column : String)
    (initial_capital risk_free_rate : ℚ) : Except PyError TopLevelSummary :=
  match pnl_data.cols.lookup pnl_column with
  | none => .error (.valueError ("Column not found in pnl_data."))
  | some s =>
    if s.length = 0 then .error (.valueError ("pnl_data is empty."))
    else .ok (topSummaryOfSeries s initial_capital risk_free_rate)

/-- One per-bucket record of the periodic summary. -/
structure PeriodSummary where
  trading_days : ℕ
  years : ℚ
  start_date : ℤ
  end_date : ℤ
  initial_capital : ℚ
  total_pnl : ℚ
  total_return : ℚ
  annualized_return : ℚ
  annualized_volatility : ℚ
  sharpe_ratio : ℚ
  max_drawdown : ℚ
  win_rate : ℚ
  best_day_pnl : ℚ
  worst_day_pnl : ℚ
  skewness : Option ℚ
  kurtosis : Option ℚ
deriving DecidableEq

/-- The per-bucket computation of `get_periodic_performance_summary`
(source lines 136–198), on one non-empty bucket of the resampled return
series. -/
def periodRecord (initial_capital risk_free_rate : ℚ)
    (trading_days_per_year : ℤ) (bucket : List (ℤ × ℚ)) : PeriodSummary :=
  let period_returns := bucket.map Prod.snd
  let trading_days := period_returns.length
  let years : ℚ :=
    if 0 < trading_days_per_year
    then (trading_days : ℚ) / (trading_days_per_year : ℚ) else 0
  let cumulative_returns := cumsum period_returns
  let total_return := cumulative_returns.getLastD 0
  let daily_mean := listMean period_returns
  -- std(ddof=1) when n > 1, else the literal 0.0
  let daily_vol : QR :=
    if 1 < trading_days
    then ⟨1, centralSum 2 period_returns / ((trading_days : ℚ) - 1)⟩
    else QR.zero
  let annualized_return := daily_mean * (trading_days_per_year : ℚ)
  let annualized_vol : QR :=
    if 0 < trading_days_per_year
    then QR.mulSqrt daily_vol (trading_days_per_year : ℚ) else QR.zero
  -- (annualized_return − rf)/(a·√b) = ((annualized_return − rf)/(a·b))·√b
  let sharpe_ratio : QR :=
    if annualized_vol.pos
    then ⟨(annualized_return - risk_free_rate) / (annualized_vol.a * annualized_vol.b),
      annualized_vol.b⟩
    else QR.zero
  let running_max := cummax cumulative_returns
  let drawdown := List.zipWith (· - ·) cumulative_returns running_max
  let max_drawdown := if drawdown.isEmpty then 0 else listMin drawdown
  let win_rate :=
    ((period_returns.countP (fun r => decide (0 < r)) : ℚ)) / (trading_days : ℚ)
  let best_day_pnl := listMax period_returns
  let worst_day_pnl := listMin period_returns
  let skew_value : Option QR :=
    if 2 < trading_days then scipySkew period_returns else some QR.zero
  let kurtosis_value : Option ℚ :=
    if 3 < trading_days then scipyKurt period_returns else some 0
  { trading_days := trading_days
    years := pythonRound 4 years
    start_date := (bucket.headD (0, 0)).1
    end_date := (bucket.getLastD (0, 0)).1
    initial_capital := initial_capital
    total_pnl := pythonRound 6 total_return
    total_return := pythonRound 6 total_return
    annualized_return := pythonRound 6 annualized_return
    annualized_volatility := QR.round 6 annualized_vol
    sharpe_ratio := QR.round 4 sharpe_ratio
    max_drawdown := pythonRound 6 max_drawdown
    win_rate := pythonRound 4 win_rate
    best_day_pnl := pythonRound 6 best_day_pnl
    worst_day_pnl := pythonRound 6 worst_day_pnl
    skewness := skew_value.map (QR.round 4)
    kurtosis := kurtosis_value.map (pythonRound 4) }

/-- The resampled return series: the per-step returns re-indexed by the
original dates (`.diff()` keeps the index). -/
def returnsSeries (s : List (ℤ × ℚ)) : List (ℤ × ℚ) :=
  List.zip (s.map Prod.fst) (dailyReturns (s.map Prod.snd))

/-- The inclusive integer interval `[a, b]` as a list. -/
def intRange (a b : ℤ) : List ℤ :=
  (List.range (b - a + 1).toNat).map (fun i : ℕ => a + (i : ℤ))

/-- pandas `Series.resample(period)`: one bin per period key between the key
of the first and the key of the last index entry; each sample falls into the
bin of its own key.  The period granularity (for example year-end "YE") is
abstracted into the key function `resample_key`, which for calendar
granularities is monotone in the date. -/
def periodBuckets (resample_key : ℤ → ℤ) (rets : List (ℤ × ℚ)) :
    List (List (ℤ × ℚ)) :=
  match rets with
  | [] => []
  | r :: _ =>
    (intRange (resample_key r.1) (resample_key ((rets.getLastD (0, 0)).1))).map
      (fun j => rets.filter (fun e => decide (resample_key e.1 = j)))

/-- The materialized `periods` list: empty bins are skipped (`continue`),
each non-empty bin produces one record. -/
def periodicRecords (resample_key : ℤ → ℤ) (initial_capital risk_free_rate : ℚ)
    (trading_days_per_year : ℤ) (rets : List (ℤ × ℚ)) : List PeriodSummary :=
  (periodBuckets resample_key rets).filterMap
    (fun b => if b.isEmpty then none
      else some (periodRecord initial_capital risk_free_rate trading_days_per_year b))

/-- Function `get_periodic_performance_summary` (source lines 109–205).  Unlike the
aggregate function it has no explicit emptiness guard: on an empty series
the expression `pnl_series.iloc[0]` (line 127) raises an `IndexError`
before any resampling happens. -/
def get_periodic_performance_summary (pnl_data : DataFrame) (pnl_column : String)
    (resample_key : ℤ → ℤ) (initial_capital risk_free_rate : ℚ)
    (trading_days_per_year : ℤ) : Except PyError (List PeriodSummary) :=
  match pnl_data.cols.lookup pnl_column with
  | none => .error (.valueError ("Column not found in pnl_data."))
  | some s =>
    match s with
    | [] => .error (.indexError ("single positional indexer is out-of-bounds"))
    | _ :: _ =>
      .ok (periodicRecords resample_key initial_capital risk_free_rate
        trading_days_per_year (returnsSeries s))

instance {ε α : Type} [DecidableEq ε] [DecidableEq α] : DecidableEq (Except ε α) :=
  fun x y =>
    match x, y with
    | .ok a, .ok b =>
      if h : a = b then isTrue (congrArg Except.ok h)
      else isFalse (fun hc => h (Except.ok.inj hc))
    | .error a, .error b =>
      if h : a = b then isTrue (congrArg Except.error h)
      else isFalse (fun hc => h (Except.error.inj hc))
    | .ok _, .error _ => isFalse (fun hc => Except.noConfusion hc)
    | .error _, .ok _ => isFalse (fun hc => Except.noConfusion hc)

/-! ## Helper lemmas -/

theorem dailyReturns_length (l : List ℚ) : (dailyReturns l).length = l.length := by
  cases l with
  | nil => rfl
  | cons x xs =>
    simp [dailyReturns]

theorem zipWith_sub_getD (xs ys : List ℚ) (j : ℕ) (hx : j < xs.length)
    (hy : j < ys.length) :
    (List.zipWith (· - ·) xs ys).getD j 0 = xs.getD j 0 - ys.getD j 0 := by
  induction xs generalizing ys j with
  | nil => simp at hx
  | cons x xs ih =>
    cases ys with
    | nil => simp at hy
    | cons y ys =>
      cases j with
      | zero => simp
      | succ j =>
        simp only [List.zipWith_cons_cons, List.getD_cons_succ]
        exact ih ys j (by simpa using hx) (by simpa using hy)

theorem listMin_le_mem {l : List ℚ} {x : ℚ} (hx : x ∈ l) : listMin l ≤ x := by
  cases l with
  | nil => simp at hx
  | cons a as =>
    have key : ∀ (as : List ℚ) (acc : ℚ), acc ≤ x ∨ x ∈ as → as.foldl min acc ≤ x := by
      intro as
      induction as with
      | nil =>
        intro acc h
        rcases h with h | h
        · simpa using h
        · simp at h
      | cons b bs ih =>
        intro acc h
        simp only [List.foldl_cons]
        rcases h with h | h
        · exact ih (min acc b) (Or.inl (le_trans (min_le_left _ _) h))
        · rcases List.mem_cons.mp h with rfl | h
          · exact ih (min acc x) (Or.inl (min_le_right _ _))
          · exact ih (min acc b) (Or.inr h)
    rcases List.mem_cons.mp hx with rfl | h
    · exact key as x (Or.inl le_rfl)
    · exact key as a (Or.inr h)

theorem listMin_mem {l : List ℚ} (hl : l ≠ []) : listMin l ∈ l := by
  cases l with
  | nil => exact absurd rfl hl
  | cons a as =>
    have key : ∀ (as : List ℚ) (acc : ℚ) (pre : List ℚ), acc ∈ pre →
        as.foldl min acc ∈ pre ∨ as.foldl min acc ∈ as := by
      intro as
      induction as with
      | nil => intro acc pre h; exact Or.inl (by simpa using h)
      | cons b bs ih =>
        intro acc pre h
        simp only [List.foldl_cons]
        rcases le_total acc b with hab | hab
        · rw [min_eq_left hab]
          rcases ih acc pre h with h1 | h1
          · exact Or.inl h1
          · exact Or.inr (List.mem_cons_of_mem _ h1)
        · rw [min_eq_right hab]
          rcases ih b [b] (by simp) with h1 | h1
          · exact Or.inr (by simpa using Or.inl (by simpa using h1))
          · exact Or.inr (List.mem_cons_of_mem _ h1)
    rcases key as a [a] (by simp) with h | h
    · simp at h; simp [listMin, h]
    · exact List.mem_cons_of_mem _ (by simpa [listMin] using h)

theorem listMin_nonpos_of_all {l : List ℚ} (hl : l ≠ [])
    (h : ∀ x ∈ l, x ≤ 0) : listMin l ≤ 0 :=
  h _ (listMin_mem hl)

/-- Per-step returns of a running sum recover the increments: the inverse
relation between `cumsum` and the diff-fillna derivation. -/
theorem dailyReturns_cumsum (l : List ℚ) : dailyReturns (cumsum l) = l := by
  have key : ∀ (l : List ℚ) (acc : ℚ),
      List.zipWith (· - ·) (cumsumFrom acc l) (acc :: cumsumFrom acc l) = l := by
    intro l
    induction l with
    | nil => intro acc; simp [cumsumFrom]
    | cons x xs ih =>
      intro acc
      have h2 : List.zipWith (· - ·) (cumsumFrom (acc + x) xs)
          ((acc + x) :: cumsumFrom (acc + x) xs) = xs := ih (acc + x)
      simp only [cumsumFrom, List.zipWith_cons_cons]
      rw [h2]
      congr 1
      ring
  cases l with
  | nil => rfl
  | cons x xs =>
    simp only [cumsum, cumsumFrom, dailyReturns]
    have h2 := key xs (0 + x)
    rw [h2]
    congr 1
    ring

/-! ## Claim C5 -/

/-- Claim C5: for every non-empty cumulative series, the derived per-step
return at index 0 equals the cumulative value at index 0, and at every
index i > 0 it equals the cumulative value at i minus the cumulative value
at i−1.  Both summary functions derive their return series through the one
definition `dailyReturns` (see `topSummaryOfSeries` and `returnsSeries`),
so the derivation is identical on both paths. -/
theorem C5_return_step_derivation (l : List ℚ) (i : ℕ) (hi : i < l.length) :
    (dailyReturns l).length = l.length ∧
    (dailyReturns l).getD i 0 =
      (if i = 0 then l.getD 0 0 else l.getD i 0 - l.getD (i - 1) 0) := by
  refine ⟨dailyReturns_length l, ?_⟩
  cases l with
  | nil => simp at hi
  | cons x xs =>
    cases i with
    | zero => simp [dailyReturns]
    | succ j =>
      have hj : j < xs.length := by simpa using hi
      simp only [dailyReturns, List.getD_cons_succ, Nat.succ_ne_zero, if_false,
        Nat.add_sub_cancel]
      rw [zipWith_sub_getD xs (x :: xs) j hj (by simp; omega)]

theorem C5_return_step_derivation_witness :
    1 < ([(1 : ℚ), 5/2, 2]).length ∧
    ((dailyReturns [(1 : ℚ), 5/2, 2]).length = ([(1 : ℚ), 5/2, 2]).length ∧
      (dailyReturns [(1 : ℚ), 5/2, 2]).getD 1 0 =
        (if (1 : ℕ) = 0 then ([(1 : ℚ), 5/2, 2]).getD 0 0
          else ([(1 : ℚ), 5/2, 2]).getD 1 0 - ([(1 : ℚ), 5/2, 2]).getD 0 0)) :=
  ⟨by norm_num, C5_return_step_derivation [(1 : ℚ), 5/2, 2] 1 (by norm_num)⟩

/-! ## Claim C3 -/

/-- Claim C3 (code bug): `generate_top_level_summary` raises `ValueError`
both when the column is missing and when the series is empty, and
`get_periodic_performance_summary` raises `ValueError` when the column is
missing — but on an empty series the periodic function reaches
`pnl_series.iloc[0]` (source line 127) before any emptiness check and
raises `IndexError`, not the `InvalidInput` `ValueError` the claim
specifies.  In every failure case the functions return no partial result,
and on a non-empty series containing the column neither raises. -/
theorem C3_invalid_input_behaviour (df : DataFrame) (col : String)
    (k : ℤ → ℤ) (ic rf : ℚ) (tdpy : ℤ) :
    (df.cols.lookup col = none →
      generate_top_level_summary df col ic rf =
        .error (.valueError ("Column not found in pnl_data.")) ∧
      get_periodic_performance_summary df col k ic rf tdpy =
        .error (.valueError ("Column not found in pnl_data."))) ∧
    (df.cols.lookup col = some [] →
      generate_top_level_summary df col ic rf =
        .error (.valueError ("pnl_data is empty.")) ∧
      get_periodic_performance_summary df col k ic rf tdpy =
        .error (.indexError ("single positional indexer is out-of-bounds"))) ∧
    (∀ s, df.cols.lookup col = some s → s ≠ [] →
      (generate_top_level_summary df col ic rf).isOk = true ∧
      (get_periodic_performance_summary df col k ic rf tdpy).isOk = true) := by
  refine ⟨?_, ?_, ?_⟩
  · intro h
    constructor <;> simp [generate_top_level_summary,
      get_periodic_performance_summary, h]
  · intro h
    constructor <;> simp [generate_top_level_summary,
      get_periodic_performance_summary, h]
  · intro s hs hne
    cases s with
    | nil => exact absurd rfl hne
    | cons e es =>
      constructor <;> simp [generate_top_level_summary,
        get_periodic_performance_summary, hs, Except.isOk, Except.toBool]

theorem C3_invalid_input_behaviour_witness :
    get_periodic_performance_summary ⟨[("PnL", [])]⟩ "PnL" id 100000 (1/50) 252 =
      .error (.indexError ("single positional indexer is out-of-bounds")) ∧
    (generate_top_level_summary ⟨[("PnL", [((0 : ℤ), (1 : ℚ))])]⟩ "PnL"
      100000 (1/50)).isOk = true :=
  ⟨((C3_invalid_input_behaviour ⟨[("PnL", [])]⟩ "PnL" id 100000 (1/50) 252).2.1
      (by simp [List.lookup])).2,
    ((C3_invalid_input_behaviour ⟨[("PnL", [((0 : ℤ), (1 : ℚ))])]⟩ "PnL" id
        100000 (1/50) 252).2.2 [((0 : ℤ), (1 : ℚ))]
      (by simp [List.lookup]) (by simp)).1⟩

theorem QR.pos_a_zero (b : ℚ) : QR.pos ⟨0, b⟩ = false := by
  simp [QR.pos]

theorem QR.pos_b_zero (a : ℚ) : QR.pos ⟨a, 0⟩ = false := by
  simp [QR.pos]

/-! ## Claim C2 -/

/-- Claim C2 (corrected): skewness needs at least 3 samples and kurtosis at
least 4.  Below those floors the periodic summary reports the guarded
default 0 — but the aggregate summary calls pandas `Series.skew()` /
`Series.kurtosis()`, which return NaN (not 0) below the floors; no
exception is raised on either path. -/
theorem C2_shape_statistic_floors (s bucket : List (ℤ × ℚ)) (ic rf : ℚ)
    (tdpy : ℤ) :
    (s.length < 3 → (topSummaryOfSeries s ic rf).skewness = none) ∧
    (s.length < 4 → (topSummaryOfSeries s ic rf).kurtosis = none) ∧
    (bucket.length < 3 → (periodRecord ic rf tdpy bucket).skewness = some 0) ∧
    (bucket.length < 4 → (periodRecord ic rf tdpy bucket).kurtosis = some 0) := by
  refine ⟨?_, ?_, ?_, ?_⟩
  · intro h
    have hlen : (dailyReturns (s.map Prod.snd)).length < 3 := by
      rw [dailyReturns_length, List.length_map]; exact h
    simp [topSummaryOfSeries, pandasSkew, hlen]
  · intro h
    have hlen : (dailyReturns (s.map Prod.snd)).length < 4 := by
      rw [dailyReturns_length, List.length_map]; exact h
    simp [topSummaryOfSeries, pandasKurt, hlen]
  · intro h
    have hlen : ¬ 2 < (bucket.map Prod.snd).length := by
      rw [List.length_map]; omega
    show (if 2 < (bucket.map Prod.snd).length then scipySkew (bucket.map Prod.snd)
        else some QR.zero).map (QR.round 4) = some 0
    rw [if_neg hlen]
    simp [QR.zero, QR.round_zero_a]
  · intro h
    have hlen : ¬ 3 < (bucket.map Prod.snd).length := by
      rw [List.length_map]; omega
    show (if 3 < (bucket.map Prod.snd).length then scipyKurt (bucket.map Prod.snd)
        else some 0).map (pythonRound 4) = some 0
    rw [if_neg hlen]
    simp [pythonRound_zero]

theorem C2_shape_statistic_floors_witness :
    ([((0 : ℤ), (1 : ℚ)), (1, 2)]).length < 3 ∧
    ([((0 : ℤ), (5 : ℚ))]).length < 3 ∧
    (topSummaryOfSeries [((0 : ℤ), (1 : ℚ)), (1, 2)] 100000 (1/50)).skewness = none ∧
    (periodRecord 100000 (1/50) 252 [((0 : ℤ), (5 : ℚ))]).skewness = some 0 ∧
    (periodRecord 100000 (1/50) 252 [((0 : ℤ), (5 : ℚ))]).kurtosis = some 0 :=
  ⟨by norm_num, by norm_num,
    (C2_shape_statistic_floors [((0 : ℤ), (1 : ℚ)), (1, 2)] [((0 : ℤ), (5 : ℚ))]
      100000 (1/50) 252).1 (by norm_num),
    (C2_shape_statistic_floors [((0 : ℤ), (1 : ℚ)), (1, 2)] [((0 : ℤ), (5 : ℚ))]
      100000 (1/50) 252).2.2.1 (by norm_num),
    (C2_shape_statistic_floors [((0 : ℤ), (1 : ℚ)), (1, 2)] [((0 : ℤ), (5 : ℚ))]
      100000 (1/50) 252).2.2.2 (by norm_num)⟩

/-- Claim C2, counterexample to the claim as stated: on a 2-sample series
the aggregate summary reports NaN (`none`) for skewness — not the defined
default 0 the claim asserts (and likewise NaN for kurtosis). -/
theorem C2_counterexample :
    (generate_top_level_summary ⟨[("PnL", [((0 : ℤ), (1 : ℚ)), (1, 2)])]⟩
        "PnL" 100000 (1/50)).map (fun r => (r.skewness, r.kurtosis)) =
      .ok (none, none) ∧
    (generate_top_level_summary ⟨[("PnL", [((0 : ℤ), (1 : ℚ)), (1, 2)])]⟩
        "PnL" 100000 (1/50)).map (fun r => r.skewness) ≠ .ok (some 0) := by
  constructor
  · simp [generate_top_level_summary, List.lookup, Except.map,
      topSummaryOfSeries, pandasSkew, pandasKurt, dailyReturns]
  · simp [generate_top_level_summary, List.lookup, Except.map,
      topSummaryOfSeries, pandasSkew, dailyReturns]

/-! ## Claim C10 -/

/-- Claim C10: a one-sample period bucket takes the guarded `else 0.0`
branch for its daily volatility, hence reports annualized volatility 0 and
the default Sharpe ratio 0; its drawdown is 0 and its skewness and
kurtosis are the guarded defaults `some 0` — every numeric field of the
record is a defined finite rational. -/
theorem C10_single_sample_bucket (d : ℤ) (x : ℚ) (ic rf : ℚ) (tdpy : ℤ) :
    (periodRecord ic rf tdpy [(d, x)]).trading_days = 1 ∧
    (periodRecord ic rf tdpy [(d, x)]).annualized_volatility = 0 ∧
    (periodRecord ic rf tdpy [(d, x)]).sharpe_ratio = 0 ∧
    (periodRecord ic rf tdpy [(d, x)]).max_drawdown = 0 ∧
    (periodRecord ic rf tdpy [(d, x)]).skewness = some 0 ∧
    (periodRecord ic rf tdpy [(d, x)]).kurtosis = some 0 ∧
    (periodRecord ic rf tdpy [(d, x)]).total_return = pythonRound 6 x ∧
    (periodRecord ic rf tdpy [(d, x)]).best_day_pnl = pythonRound 6 x ∧
    (periodRecord ic rf tdpy [(d, x)]).worst_day_pnl = pythonRound 6 x := by
  refine ⟨rfl, ?_, ?_, ?_, ?_, ?_, ?_, ?_, ?_⟩
  · by_cases hp : 0 < tdpy <;>
      simp [periodRecord, hp, QR.zero, QR.mulSqrt, QR.round_zero_a]
  · by_cases hp : 0 < tdpy <;>
      simp [periodRecord, hp, QR.zero, QR.mulSqrt, QR.pos_a_zero,
        QR.round_zero_a]
  · simp [periodRecord, cumsum, cumsumFrom, cummax, cummaxFrom, listMin,
      pythonRound_zero]
  · simp [periodRecord, QR.zero, QR.round_zero_a]
  · simp [periodRecord, pythonRound_zero]
  · simp [periodRecord, cumsum, cumsumFrom, listMax, listMin]
  · simp [periodRecord, listMax]
  · simp [periodRecord, listMin]

/-! ## Claim C4 -/

/-- Claim C4: whenever the Sharpe denominator is degenerate — fewer than 2
samples, or zero dispersion of the excess-return series in the aggregate
(equivalently zero `m2`), or zero bucket dispersion in the periodic path —
the guarded `else 0.0` branch is taken and the reported Sharpe ratio is
the defined default 0; no division by zero is performed.  A series whose
per-step return constantly equals the daily risk-free rate has zero excess
dispersion, so it falls under this statement. -/
theorem C4_sharpe_degenerate_default (s bucket : List (ℤ × ℚ)) (ic rf : ℚ)
    (tdpy : ℤ)
    (hs : s.length < 2 ∨
      centralSum 2 ((dailyReturns (s.map Prod.snd)).map (fun r => r - rf / 252)) = 0)
    (hb : bucket.length < 2 ∨ centralSum 2 (bucket.map Prod.snd) = 0) :
    (topSummaryOfSeries s ic rf).sharpe_ratio = 0 ∧
    (periodRecord ic rf tdpy bucket).sharpe_ratio = 0 := by
  constructor
  · have hlen : (dailyReturns (s.map Prod.snd)).length = s.length := by
      rw [dailyReturns_length, List.length_map]
    by_cases h2 : (dailyReturns (s.map Prod.snd)).length < 2
    · have hv : sampleVar ((dailyReturns (s.map Prod.snd)).map (fun r => r - rf / 252))
          = none := by
        simp [sampleVar, h2]
      simp [topSummaryOfSeries, hv, QR.zero, QR.round_zero_a]
    · rcases hs with h | h
      · exact absurd (by rw [hlen]; exact h) h2
      · have hv : sampleVar ((dailyReturns (s.map Prod.snd)).map (fun r => r - rf / 252))
            = some 0 := by
          simp [sampleVar, h2, h]
        simp [topSummaryOfSeries, hv, QR.pos_b_zero, QR.zero, QR.round_zero_a]
  · by_cases h1 : 1 < bucket.length
    · have hm2 : centralSum 2 (bucket.map Prod.snd) = 0 := by
        rcases hb with h | h
        · omega
        · exact h
      by_cases hp : 0 < tdpy <;>
        simp [periodRecord, h1, hp, hm2, QR.mulSqrt, QR.pos_b_zero, QR.pos_a_zero,
          QR.zero, QR.round_zero_a]
    · by_cases hp : 0 < tdpy <;>
        simp [periodRecord, h1, hp, QR.mulSqrt, QR.zero, QR.pos_a_zero,
          QR.round_zero_a]

theorem C4_sharpe_degenerate_default_witness :
    centralSum 2 ((dailyReturns (([((0 : ℤ), (1 : ℚ)), (1, 2), (2, 3)]).map Prod.snd)).map
      (fun r => r - 252 / 252)) = 0 ∧
    centralSum 2 (([((0 : ℤ), (1 : ℚ)), (1, 1), (2, 1)]).map Prod.snd) = 0 ∧
    ((topSummaryOfSeries [((0 : ℤ), (1 : ℚ)), (1, 2), (2, 3)] 100000 252).sharpe_ratio = 0 ∧
      (periodRecord 100000 252 252 [((0 : ℤ), (1 : ℚ)), (1, 1), (2, 1)]).sharpe_ratio = 0) :=
  ⟨by norm_num [centralSum, listMean, dailyReturns],
    by norm_num [centralSum, listMean],
    C4_sharpe_degenerate_default [((0 : ℤ), (1 : ℚ)), (1, 2), (2, 3)]
      [((0 : ℤ), (1 : ℚ)), (1, 1), (2, 1)] 100000 252 252
      (Or.inr (by norm_num [centralSum, listMean, dailyReturns]))
      (Or.inr (by norm_num [centralSum, listMean]))⟩

/-! ## Claim C1 -/

/-- Claim C1 (corrected): on the concrete 5-step series
[0.01, 0.02, 0.015, 0.03, 0.025] with initial capital 100000 and zero
risk-free rate, the report has trading_days = 5, total_return_pct = 2.5 and
best single-step return 1.5 as claimed — but the drawdown the code computes
is ratio-based (portfolio/running-max − 1), so the dip 1.5 %→2.0 % reports
−500/102000·100 ≈ −0.4902, rounded to −0.49, not the value-difference
−0.5. -/
theorem C1_concrete_scenario :
    (generate_top_level_summary
        ⟨[("PnL", [((0 : ℤ), (1/100 : ℚ)), (1, 2/100), (2, 15/1000),
          (3, 3/100), (4, 25/1000)])]⟩ "PnL" 100000 0).map
      (fun r => (r.trading_days, r.total_return_pct, r.best_day_pct,
        r.max_drawdown_pct)) =
      .ok (5, 5/2, 3/2, Fx.fin (-49/100)) := by
  norm_num [generate_top_level_summary, topSummaryOfSeries, List.lookup,
    Except.map, dailyReturns, listMax, cummax, cummaxFrom, fxDiv, Fx.sub1,
    Fx.mul100, Fx.round2, fxMinSkipna, fxMinStep, pythonRound, roundHalfEven]

/-- Claim C1, counterexample to the claim as stated: the reported maximum
drawdown on that series is not −0.5 (it is −0.49). -/
theorem C1_counterexample :
    (generate_top_level_summary
        ⟨[("PnL", [((0 : ℤ), (1/100 : ℚ)), (1, 2/100), (2, 15/1000),
          (3, 3/100), (4, 25/1000)])]⟩ "PnL" 100000 0).map
      (fun r => r.max_drawdown_pct) ≠ .ok (Fx.fin (-1/2)) := by
  norm_num [generate_top_level_summary, topSummaryOfSeries, List.lookup,
    Except.map, dailyReturns, cummax, cummaxFrom, fxDiv, Fx.sub1,
    Fx.mul100, Fx.round2, fxMinSkipna, fxMinStep, pythonRound, roundHalfEven]

/-! ## Claim C9 -/

/-- Claim C9 (corrected): every numeric field of both outputs is produced by
applying Python `round` exactly once, at record assembly, to a value
computed at full precision — but the precisions are 2 decimals throughout
the aggregate record and a mixture of 4 and 6 decimals (not 2 or 4) in the
periodic record, while `initial_capital` and `trading_days` are passed
through unrounded.  The right-hand sides below spell out the full-precision
expression behind every rounded field. -/
theorem C9_rounding_at_boundary (s bucket : List (ℤ × ℚ)) (ic rf : ℚ)
    (tdpy : ℤ) :
    topSummaryOfSeries s ic rf =
      { trading_days := (s.map Prod.snd).length
        years := pythonRound 2 (((s.map Prod.snd).length : ℚ) / 252)
        start_date := (s.headD (0, 0)).1
        end_date := (s.getLastD (0, 0)).1
        initial_capital := ic
        final_value := pythonRound 2
          (((s.map Prod.snd).map (fun v => ic * (1 + v))).getLastD 0)
        total_pnl := pythonRound 2
          (((s.map Prod.snd).map (fun v => ic * (1 + v))).getLastD 0 - ic)
        total_return_pct := pythonRound 2 ((s.map Prod.snd).getLastD 0 * 100)
        annualized_return_pct := pythonRound 2
          (((1 + listMean (dailyReturns (s.map Prod.snd))) ^ (252 : ℕ) - 1) * 100)
        annualized_volatility_pct :=
          ((sampleVar (dailyReturns (s.map Prod.snd))).map
            (fun v => QR.scaleQ 100 (QR.mulSqrt ⟨1, v⟩ 252))).map (QR.round 2)
        sharpe_ratio := QR.round 2
          (match (sampleVar ((dailyReturns (s.map Prod.snd)).map
              (fun r => r - rf / 252))).map (fun v => (⟨1, v⟩ : QR)) with
            | some v =>
              if v.pos then
                ⟨listMean ((dailyReturns (s.map Prod.snd)).map
                  (fun r => r - rf / 252)), 252 / v.b⟩
              else QR.zero
            | none => QR.zero)
        max_drawdown_pct :=
          (fxMinSkipna (List.zipWith (fun p m => (fxDiv p m).sub1)
            ((s.map Prod.snd).map (fun v => ic * (1 + v)))
            (cummax ((s.map Prod.snd).map (fun v => ic * (1 + v)))))).mul100.round2
        win_rate_pct := pythonRound 2
          (((dailyReturns (s.map Prod.snd)).countP (fun r => decide (0 < r)) : ℚ) /
            ((s.map Prod.snd).length : ℚ) * 100)
        best_day_pct := pythonRound 2 (listMax (dailyReturns (s.map Prod.snd)) * 100)
        worst_day_pct := pythonRound 2 (listMin (dailyReturns (s.map Prod.snd)) * 100)
        skewness := (pandasSkew (dailyReturns (s.map Prod.snd))).map (QR.round 2)
        kurtosis := (pandasKurt (dailyReturns (s.map Prod.snd))).map (pythonRound 2) } ∧
    periodRecord ic rf tdpy bucket =
      { trading_days := (bucket.map Prod.snd).length
        years := pythonRound 4
          (if 0 < tdpy then ((bucket.map Prod.snd).length : ℚ) / (tdpy : ℚ) else 0)
        start_date := (bucket.headD (0, 0)).1
        end_date := (bucket.getLastD (0, 0)).1
        initial_capital := ic
        total_pnl := pythonRound 6 ((cumsum (bucket.map Prod.snd)).getLastD 0)
        total_return := pythonRound 6 ((cumsum (bucket.map Prod.snd)).getLastD 0)
        annualized_return := pythonRound 6
          (listMean (bucket.map Prod.snd) * (tdpy : ℚ))
        annualized_volatility := QR.round 6
          (if 0 < tdpy then
            QR.mulSqrt
              (if 1 < (bucket.map Prod.snd).length then
                ⟨1, centralSum 2 (bucket.map Prod.snd) /
                  (((bucket.map Prod.snd).length : ℚ) - 1)⟩
              else QR.zero) (tdpy : ℚ)
          else QR.zero)
        sharpe_ratio := QR.round 4
          (if (if 0 < tdpy then
              QR.mulSqrt
                (if 1 < (bucket.map Prod.snd).length then
                  ⟨1, centralSum 2 (bucket.map Prod.snd) /
                    (((bucket.map Prod.snd).length : ℚ) - 1)⟩
                else QR.zero) (tdpy : ℚ)
            else QR.zero).pos then
            ⟨(listMean (bucket.map Prod.snd) * (tdpy : ℚ) - rf) /
              ((if 0 < tdpy then
                  QR.mulSqrt
                    (if 1 < (bucket.map Prod.snd).length then
                      ⟨1, centralSum 2 (bucket.map Prod.snd) /
                        (((bucket.map Prod.snd).length : ℚ) - 1)⟩
                    else QR.zero) (tdpy : ℚ)
                else QR.zero).a *
                (if 0 < tdpy then
                    QR.mulSqrt
                      (if 1 < (bucket.map Prod.snd).length then
                        ⟨1, centralSum 2 (bucket.map Prod.snd) /
                          (((bucket.map Prod.snd).length : ℚ) - 1)⟩
                      else QR.zero) (tdpy : ℚ)
                  else QR.zero).b),
              (if 0 < tdpy then
                  QR.mulSqrt
                    (if 1 < (bucket.map Prod.snd).length then
                      ⟨1, centralSum 2 (bucket.map Prod.snd) /
                        (((bucket.map Prod.snd).length : ℚ) - 1)⟩
                    else QR.zero) (tdpy : ℚ)
                else QR.zero).b⟩
          else QR.zero)
        max_drawdown := pythonRound 6
          (if (List.zipWith (· - ·) (cumsum (bucket.map Prod.snd))
              (cummax (cumsum (bucket.map Prod.snd)))).isEmpty then 0
          else listMin (List.zipWith (· - ·) (cumsum (bucket.map Prod.snd))
            (cummax (cumsum (bucket.map Prod.snd)))))
        win_rate := pythonRound 4
          (((bucket.map Prod.snd).countP (fun r => decide (0 < r)) : ℚ) /
            ((bucket.map Prod.snd).length : ℚ))
        best_day_pnl := pythonRound 6 (listMax (bucket.map Prod.snd))
        worst_day_pnl := pythonRound 6 (listMin (bucket.map Prod.snd))
        skewness := (if 2 < (bucket.map Prod.snd).length
          then scipySkew (bucket.map Prod.snd) else some QR.zero).map (QR.round 4)
        kurtosis := (if 3 < (bucket.map Prod.snd).length
          then scipyKurt (bucket.map Prod.snd) else some 0).map (pythonRound 4) } :=
  ⟨rfl, rfl⟩

/-- Claim C9, counterexample to the claim as stated: the periodic
`total_return` field is rounded to 6 decimal places — on a one-sample
bucket with return 0.1234567 the record reports 0.123457, which is neither
the 4-decimal nor the 2-decimal rounding of the full-precision value. -/
theorem C9_counterexample :
    (periodRecord 100000 (1/50) 252 [((0 : ℤ), (1234567/10000000 : ℚ))]).total_return
        = 123457/1000000 ∧
    (123457/1000000 : ℚ) ≠ pythonRound 4 (1234567/10000000 : ℚ) ∧
    (123457/1000000 : ℚ) ≠ pythonRound 2 (1234567/10000000 : ℚ) := by
  refine ⟨?_, ?_, ?_⟩
  · norm_num [periodRecord, cumsum, cumsumFrom, pythonRound, roundHalfEven]
  · norm_num [pythonRound, roundHalfEven]
  · norm_num [pythonRound, roundHalfEven]

/-! ## Claim C7: bucket partition machinery -/

theorem intRange_nodup (a b : ℤ) : (intRange a b).Nodup := by
  have hinj : Function.Injective (fun i : ℕ => a + (i : ℤ)) := by
    intro i j hij
    simpa using hij
  exact List.Nodup.map hinj (List.nodup_range _)

theorem mem_intRange_iff (a b j : ℤ) : j ∈ intRange a b ↔ a ≤ j ∧ j ≤ b := by
  unfold intRange
  simp only [List.mem_map, List.mem_range]
  constructor
  · rintro ⟨i, hi, rfl⟩
    constructor <;> omega
  · rintro ⟨h1, h2⟩
    refine ⟨(j - a).toNat, by omega, by omega⟩

theorem sum_map_add_nat (K : List ℤ) (f g : ℤ → ℕ) :
    (K.map (fun j => f j + g j)).sum = (K.map f).sum + (K.map g).sum := by
  induction K with
  | nil => rfl
  | cons j K ih =>
    simp only [List.map_cons, List.sum_cons, ih]
    omega

theorem sum_indicator_zero (K : List ℤ) (a : ℤ) (ha : a ∉ K) :
    (K.map (fun j => if a = j then 1 else 0)).sum = 0 := by
  induction K with
  | nil => rfl
  | cons j K ih =>
    have hja : a ≠ j := fun h => ha (h ▸ List.mem_cons_self j K)
    have hrest := ih (fun h => ha (List.mem_cons_of_mem _ h))
    simp [hja, hrest]

theorem sum_indicator_one (K : List ℤ) (a : ℤ) (hK : K.Nodup) (ha : a ∈ K) :
    (K.map (fun j => if a = j then 1 else 0)).sum = 1 := by
  induction K with
  | nil => simp at ha
  | cons j K ih =>
    rcases List.mem_cons.mp ha with rfl | hmem
    · have h0 := sum_indicator_zero K a (by simpa using (List.nodup_cons.mp hK).1)
      simp [h0]
    · have hja : a ≠ j := by
        intro h
        exact (List.nodup_cons.mp hK).1 (h ▸ hmem)
      have hrest := ih (List.nodup_cons.mp hK).2 hmem
      simp [hja, hrest]

theorem sum_filter_lengths (k : ℤ → ℤ) (K : List ℤ) (hK : K.Nodup)
    (l : List (ℤ × ℚ)) (hcov : ∀ e ∈ l, k e.1 ∈ K) :
    (K.map (fun j => (l.filter (fun e => decide (k e.1 = j))).length)).sum
      = l.length := by
  induction l with
  | nil => simp
  | cons e l ih =>
    have hstep : ∀ j : ℤ,
        ((e :: l).filter (fun e2 => decide (k e2.1 = j))).length =
          (if k e.1 = j then 1 else 0) +
            (l.filter (fun e2 => decide (k e2.1 = j))).length := by
      intro j
      by_cases hj : k e.1 = j
      · simp only [List.filter_cons, hj]
        simp
        omega
      · simp [List.filter_cons, hj]
    calc (K.map (fun j => ((e :: l).filter (fun e2 => decide (k e2.1 = j))).length)).sum
        = (K.map (fun j => (if k e.1 = j then 1 else 0) +
            (l.filter (fun e2 => decide (k e2.1 = j))).length)).sum := by
          congr 1
          exact List.map_congr_left (fun j _ => hstep j)
      _ = (K.map (fun j => if k e.1 = j then 1 else 0)).sum +
            (K.map (fun j => (l.filter (fun e2 => decide (k e2.1 = j))).length)).sum :=
          sum_map_add_nat K _ _
      _ = 1 + l.length := by
          rw [sum_indicator_one K (k e.1) hK (hcov e (List.mem_cons_self e l)),
            ih (fun e2 he2 => hcov e2 (List.mem_cons_of_mem _ he2))]
      _ = (e :: l).length := by simp [Nat.add_comm]

theorem pairwise_headD_le {l : List ℤ} (h : l.Pairwise (· < ·)) {d : ℤ}
    (hd : d ∈ l) : l.headD 0 ≤ d := by
  cases l with
  | nil => simp at hd
  | cons a as =>
    rcases List.mem_cons.mp hd with rfl | hmem
    · simp
    · have := (List.pairwise_cons.mp h).1 d hmem
      simp only [List.headD_cons]
      omega

theorem pairwise_le_getLastD :
    ∀ {l : List ℤ}, l.Pairwise (· < ·) → ∀ {d : ℤ}, d ∈ l → d ≤ l.getLastD 0 := by
  intro l
  induction l with
  | nil =>
    intro _ d hd
    simp at hd
  | cons a as ih =>
    intro h d hd
    cases as with
    | nil =>
      rcases List.mem_cons.mp hd with rfl | hmem
      · simp
      · simp at hmem
    | cons b bs =>
      have htail : (b :: bs).Pairwise (· < ·) := (List.pairwise_cons.mp h).2
      have hlast : (a :: b :: bs).getLastD 0 = (b :: bs).getLastD 0 := by
        simp [List.getLastD_cons]
      rcases List.mem_cons.mp hd with rfl | hmem
      · have hb : d < b := (List.pairwise_cons.mp h).1 b (List.mem_cons_self b bs)
        have hble := ih htail (List.mem_cons_self b bs)
        rw [hlast]
        omega
      · rw [hlast]
        exact ih htail hmem

theorem map_fst_headD (l : List (ℤ × ℚ)) :
    (l.map Prod.fst).headD 0 = (l.headD (0, 0)).1 := by
  cases l <;> simp

theorem map_fst_getLastD (l : List (ℤ × ℚ)) :
    (l.map Prod.fst).getLastD 0 = (l.getLastD (0, 0)).1 := by
  induction l with
  | nil => simp
  | cons a as ih =>
    cases as with
    | nil => simp
    | cons b bs => simpa [List.getLastD_cons] using ih

/-- Every key of a date-sorted series lies in the bin range spanned by the
first and last date. -/
theorem key_mem_range {k : ℤ → ℤ} (hmono : Monotone k) {l : List (ℤ × ℚ)}
    (hsorted : (l.map Prod.fst).Pairwise (· < ·)) {e : ℤ × ℚ} (he : e ∈ l) :
    k e.1 ∈ intRange (k ((l.headD (0, 0)).1)) (k ((l.getLastD (0, 0)).1)) := by
  have hmem : e.1 ∈ l.map Prod.fst := List.mem_map_of_mem Prod.fst he
  have h1 : (l.map Prod.fst).headD 0 ≤ e.1 := pairwise_headD_le hsorted hmem
  have h2 : e.1 ≤ (l.map Prod.fst).getLastD 0 := pairwise_le_getLastD hsorted hmem
  rw [map_fst_headD] at h1
  rw [map_fst_getLastD] at h2
  rw [mem_intRange_iff]
  exact ⟨hmono h1, hmono h2⟩

theorem periodRecord_trading_days (ic rf : ℚ) (tdpy : ℤ) (b : List (ℤ × ℚ)) :
    (periodRecord ic rf tdpy b).trading_days = b.length := by
  show (b.map Prod.snd).length = b.length
  exact List.length_map b Prod.snd

theorem records_sum_eq_buckets_sum (ic rf : ℚ) (tdpy : ℤ)
    (bs : List (List (ℤ × ℚ))) :
    ((bs.filterMap (fun b => if b.isEmpty then none
        else some (periodRecord ic rf tdpy b))).map (fun r => r.trading_days)).sum
      = (bs.map List.length).sum := by
  induction bs with
  | nil => rfl
  | cons b bs ih =>
    by_cases hb : b.isEmpty
    · have hbe : b = [] := List.isEmpty_iff.mp hb
      subst hbe
      simpa [List.filterMap_cons] using ih
    · have hsome : (if b.isEmpty = true then none
          else some (periodRecord ic rf tdpy b)) = some (periodRecord ic rf tdpy b) :=
        if_neg hb
      simp only [List.filterMap_cons, hsome, List.map_cons, List.sum_cons,
        periodRecord_trading_days, ih]

theorem periodBuckets_length_sum {k : ℤ → ℤ} (hmono : Monotone k)
    {rets : List (ℤ × ℚ)} (hne : rets ≠ [])
    (hsorted : (rets.map Prod.fst).Pairwise (· < ·)) :
    ((periodBuckets k rets).map List.length).sum = rets.length := by
  cases rets with
  | nil => exact absurd rfl hne
  | cons r rs =>
    show ((List.map (fun j => (r :: rs).filter (fun e => decide (k e.1 = j)))
      (intRange (k r.1) (k (((r :: rs).getLastD (0, 0)).1)))).map List.length).sum
        = (r :: rs).length
    rw [List.map_map]
    have hfun : (List.length ∘ fun j => (r :: rs).filter (fun e => decide (k e.1 = j)))
        = fun j => ((r :: rs).filter (fun e => decide (k e.1 = j))).length := rfl
    rw [hfun]
    refine sum_filter_lengths k _ (intRange_nodup _ _) (r :: rs) ?_
    intro e he
    exact key_mem_range hmono hsorted he

theorem periodicRecords_trading_days_sum {k : ℤ → ℤ} (hmono : Monotone k)
    (ic rf : ℚ) (tdpy : ℤ) {rets : List (ℤ × ℚ)} (hne : rets ≠ [])
    (hsorted : (rets.map Prod.fst).Pairwise (· < ·)) :
    ((periodicRecords k ic rf tdpy rets).map (fun r => r.trading_days)).sum
      = rets.length := by
  unfold periodicRecords
  rw [records_sum_eq_buckets_sum]
  exact periodBuckets_length_sum hmono hne hsorted

theorem countP_buckets_zero {k : ℤ → ℤ} (rets : List (ℤ × ℚ)) (K : List ℤ)
    {e : ℤ × ℚ} (hnot : k e.1 ∉ K) :
    ((K.map (fun j => rets.filter (fun e2 => decide (k e2.1 = j)))).countP
      (fun b => decide (e ∈ b))) = 0 := by
  induction K with
  | nil => rfl
  | cons j K ih =>
    have hne : k e.1 ≠ j := fun h => hnot (h ▸ List.mem_cons_self _ _)
    have hnotmem : e ∉ rets.filter (fun e2 => decide (k e2.1 = j)) := by
      intro hmem
      have h2 := (List.mem_filter.mp hmem).2
      simp only [decide_eq_true_eq] at h2
      exact hne h2
    simp only [List.map_cons, List.countP_cons]
    rw [ih (fun h => hnot (List.mem_cons_of_mem _ h))]
    simp [hnotmem]

theorem countP_buckets_one {k : ℤ → ℤ} (rets : List (ℤ × ℚ)) (K : List ℤ)
    (hK : K.Nodup) {e : ℤ × ℚ} (he : e ∈ rets) (hmem : k e.1 ∈ K) :
    ((K.map (fun j => rets.filter (fun e2 => decide (k e2.1 = j)))).countP
      (fun b => decide (e ∈ b))) = 1 := by
  induction K with
  | nil => simp at hmem
  | cons j K ih =>
    simp only [List.map_cons, List.countP_cons]
    rcases List.mem_cons.mp hmem with heq | hmem2
    · have hin : e ∈ rets.filter (fun e2 => decide (k e2.1 = j)) :=
        List.mem_filter.mpr ⟨he, by simp [heq]⟩
      have hnotK : k e.1 ∉ K := by
        rw [heq]
        exact (List.nodup_cons.mp hK).1
      rw [countP_buckets_zero rets K hnotK]
      simp [hin]
    · have hne : k e.1 ≠ j := by
        intro h
        exact (List.nodup_cons.mp hK).1 (by rw [← h]; exact hmem2)
      have hnotmem : e ∉ rets.filter (fun e2 => decide (k e2.1 = j)) := by
        intro hmem3
        have h2 := (List.mem_filter.mp hmem3).2
        simp only [decide_eq_true_eq] at h2
        exact hne h2
      rw [ih (List.nodup_cons.mp hK).2 hmem2]
      simp [hnotmem]

theorem returnsSeries_length (s : List (ℤ × ℚ)) :
    (returnsSeries s).length = s.length := by
  unfold returnsSeries
  rw [List.length_zip, dailyReturns_length, List.length_map, List.length_map]
  exact Nat.min_self _

theorem returnsSeries_map_fst (s : List (ℤ × ℚ)) :
    (returnsSeries s).map Prod.fst = s.map Prod.fst := by
  unfold returnsSeries
  apply List.map_fst_zip
  rw [dailyReturns_length, List.length_map, List.length_map]

/-- Claim C7: for a non-empty date-sorted series and a monotone resampling
key, the resampling bins partition the derived return series — every sample
lies in exactly one bin, empty bins produce no record, and the sum of
`trading_days` over the returned period records equals the number of
samples in the input series. -/
theorem C7_period_buckets_partition (df : DataFrame) (col : String)
    (k : ℤ → ℤ) (ic rf : ℚ) (tdpy : ℤ) (s : List (ℤ × ℚ))
    (hlook : df.cols.lookup col = some s) (hne : s ≠ [])
    (hmono : Monotone k)
    (hsorted : (s.map Prod.fst).Pairwise (· < ·)) :
    (get_periodic_performance_summary df col k ic rf tdpy).map
        (fun recs => (recs.map (fun r => r.trading_days)).sum) = .ok s.length ∧
    ∀ e ∈ returnsSeries s,
      ((periodBuckets k (returnsSeries s)).countP (fun b => decide (e ∈ b))) = 1 := by
  have hrsorted : ((returnsSeries s).map Prod.fst).Pairwise (· < ·) := by
    rw [returnsSeries_map_fst]
    exact hsorted
  have hrne : returnsSeries s ≠ [] := by
    intro h
    apply hne
    have hlen := returnsSeries_length s
    rw [h] at hlen
    exact List.length_eq_zero.mp hlen.symm
  constructor
  · cases s with
    | nil => exact absurd rfl hne
    | cons e es =>
      simp only [get_periodic_performance_summary, hlook, Except.map]
      rw [periodicRecords_trading_days_sum hmono ic rf tdpy hrne hrsorted,
        returnsSeries_length]
  · intro e he
    rcases hr : returnsSeries s with _ | ⟨r, rs⟩
    · rw [hr] at he
      simp at he
    · rw [hr] at he
      have hsorted2 : ((r :: rs).map Prod.fst).Pairwise (· < ·) := hr ▸ hrsorted
      show ((intRange (k r.1) (k (((r :: rs).getLastD (0, 0)).1))).map
          (fun j => (r :: rs).filter (fun e2 => decide (k e2.1 = j)))).countP
          (fun b => decide (e ∈ b)) = 1
      exact countP_buckets_one (r :: rs) _ (intRange_nodup _ _) he
        (key_mem_range hmono hsorted2 he)

theorem C7_period_buckets_partition_witness :
    Monotone (id : ℤ → ℤ) ∧
    (([((0 : ℤ), (1/2 : ℚ)), (1, 1/3), (5, 1/4)]).map Prod.fst).Pairwise (· < ·) ∧
    ((get_periodic_performance_summary
        ⟨[("PnL", [((0 : ℤ), (1/2 : ℚ)), (1, 1/3), (5, 1/4)])]⟩ "PnL" id 100000
        (1/50) 252).map
        (fun recs => (recs.map (fun r => r.trading_days)).sum) =
          .ok ([((0 : ℤ), (1/2 : ℚ)), (1, 1/3), (5, 1/4)]).length ∧
      ∀ e ∈ returnsSeries [((0 : ℤ), (1/2 : ℚ)), (1, 1/3), (5, 1/4)],
        ((periodBuckets (id : ℤ → ℤ)
          (returnsSeries [((0 : ℤ), (1/2 : ℚ)), (1, 1/3), (5, 1/4)])).countP
          (fun b => decide (e ∈ b))) = 1) :=
  ⟨fun _ _ h => h, by decide,
    C7_period_buckets_partition
      ⟨[("PnL", [((0 : ℤ), (1/2 : ℚ)), (1, 1/3), (5, 1/4)])]⟩ "PnL" id 100000
      (1/50) 252 [((0 : ℤ), (1/2 : ℚ)), (1, 1/3), (5, 1/4)]
      (by simp [List.lookup]) (by simp) (fun _ _ h => h) (by decide)⟩

/-! ## Claim C6: drawdown sign machinery -/

/-- A reported drawdown entry that is `-inf` or a nonpositive finite value. -/
def FxNonpos (d : Fx) : Prop := d = Fx.ninf ∨ ∃ q, q ≤ 0 ∧ d = Fx.fin q

theorem fxMinStep_nonpos_left {acc : Fx} (h : FxNonpos acc) (d : Fx) :
    FxNonpos (fxMinStep acc d) := by
  rcases h with rfl | ⟨q, hq, rfl⟩ <;> cases d <;>
    simp [fxMinStep, FxNonpos] <;>
    first
      | exact Or.inl hq
      | exact Or.inr hq
      | exact hq

theorem fxMinStep_nonpos_right (acc : Fx) {d : Fx} (h : FxNonpos d) :
    FxNonpos (fxMinStep acc d) := by
  rcases h with rfl | ⟨q, hq, rfl⟩ <;> cases acc <;>
    simp [fxMinStep, FxNonpos] <;>
    first
      | exact Or.inl hq
      | exact Or.inr hq
      | exact hq

theorem foldl_fxMinStep_nonpos :
    ∀ (l : List Fx) (acc : Fx),
      (FxNonpos acc ∨ ∃ d ∈ l, FxNonpos d) →
      FxNonpos (l.foldl fxMinStep acc) := by
  intro l
  induction l with
  | nil =>
    intro acc h
    rcases h with h | ⟨d, hd, _⟩
    · exact h
    · simp at hd
  | cons d l ih =>
    intro acc h
    simp only [List.foldl_cons]
    rcases h with h | ⟨d2, hd2, hgood⟩
    · exact ih _ (Or.inl (fxMinStep_nonpos_left h d))
    · rcases List.mem_cons.mp hd2 with rfl | hmem
      · exact ih _ (Or.inl (fxMinStep_nonpos_right acc hgood))
      · exact ih _ (Or.inr ⟨d2, hmem, hgood⟩)

theorem fxMinSkipna_nonpos {l : List Fx} (h : ∃ d ∈ l, FxNonpos d) :
    FxNonpos (fxMinSkipna l) :=
  foldl_fxMinStep_nonpos l Fx.nan (Or.inr h)

/-- First drawdown entry over an all-zero prefix: once a nonzero portfolio
value appears (with running maximum still 0), the entry is `-inf` (value
negative) or `0` (value positive). -/
theorem zip_cummaxFrom_zero_good :
    ∀ (l : List ℚ), (∃ y ∈ l, y ≠ 0) →
      ∃ d ∈ List.zipWith (fun p m => (fxDiv p m).sub1) l (cummaxFrom 0 l),
        FxNonpos d := by
  intro l
  induction l with
  | nil =>
    intro h
    simp at h
  | cons y ys ih =>
    intro hex
    by_cases hy : y = 0
    · subst hy
      have hex2 : ∃ y2 ∈ ys, y2 ≠ 0 := by
        rcases hex with ⟨y2, hy2, hne⟩
        rcases List.mem_cons.mp hy2 with rfl | hmem
        · exact absurd rfl hne
        · exact ⟨y2, hmem, hne⟩
      rcases ih hex2 with ⟨d, hd, hgood⟩
      refine ⟨d, ?_, hgood⟩
      simp only [cummaxFrom, max_self, List.zipWith_cons_cons]
      exact List.mem_cons_of_mem _ hd
    · rcases lt_or_gt_of_ne hy with hneg | hpos
      · refine ⟨Fx.ninf, ?_, Or.inl rfl⟩
        have hmax : max 0 y = 0 := max_eq_left (le_of_lt hneg)
        have hdiv : fxDiv y 0 = Fx.ninf := by
          unfold fxDiv
          rw [if_neg (by simp), if_neg hy, if_neg (by exact not_lt.mpr (le_of_lt hneg))]
        simp only [cummaxFrom, hmax, List.zipWith_cons_cons, hdiv, Fx.sub1]
        exact List.mem_cons_self _ _
      · refine ⟨Fx.fin 0, ?_, Or.inr ⟨0, le_rfl, rfl⟩⟩
        have hmax : max 0 y = y := max_eq_right (le_of_lt hpos)
        have hdiv : fxDiv y y = Fx.fin 1 := by
          unfold fxDiv
          rw [if_pos hy]
          rw [div_self hy]
        simp only [cummaxFrom, hmax, List.zipWith_cons_cons, hdiv, Fx.sub1]
        rw [show (1 : ℚ) - 1 = 0 by ring]
        exact List.mem_cons_self _ _

/-- The aggregate drawdown list always contains a `-inf`-or-nonpositive
entry once some portfolio value is nonzero. -/
theorem dds_good (pv : List ℚ) (hne : pv ≠ []) (hex : ∃ y ∈ pv, y ≠ 0) :
    ∃ d ∈ List.zipWith (fun p m => (fxDiv p m).sub1) pv (cummax pv),
      FxNonpos d := by
  cases pv with
  | nil => exact absurd rfl hne
  | cons x xs =>
    by_cases hx : x = 0
    · subst hx
      have hex2 : ∃ y ∈ xs, y ≠ 0 := by
        rcases hex with ⟨y, hy, hyne⟩
        rcases List.mem_cons.mp hy with rfl | hmem
        · exact absurd rfl hyne
        · exact ⟨y, hmem, hyne⟩
      rcases zip_cummaxFrom_zero_good xs hex2 with ⟨d, hd, hgood⟩
      refine ⟨d, ?_, hgood⟩
      show d ∈ List.zipWith (fun p m => (fxDiv p m).sub1) (0 :: xs) (cummaxFrom 0 (0 :: xs))
      simp only [cummaxFrom, max_self, List.zipWith_cons_cons]
      exact List.mem_cons_of_mem _ hd
    · refine ⟨Fx.fin 0, ?_, Or.inr ⟨0, le_rfl, rfl⟩⟩
      show Fx.fin 0 ∈ List.zipWith (fun p m => (fxDiv p m).sub1) (x :: xs) (cummaxFrom x (x :: xs))
      have hdiv : fxDiv x x = Fx.fin 1 := by
        unfold fxDiv
        rw [if_pos hx]
        rw [div_self hx]
      simp only [cummaxFrom, max_self, List.zipWith_cons_cons, hdiv, Fx.sub1]
      rw [show (1 : ℚ) - 1 = 0 by ring]
      exact List.mem_cons_self _ _

theorem fx_mul100_round2_nonpos {d : Fx} (h : FxNonpos d) :
    FxNonpos d.mul100.round2 := by
  rcases h with rfl | ⟨q, hq, rfl⟩
  · exact Or.inl rfl
  · refine Or.inr ⟨pythonRound 2 (q * 100), ?_, rfl⟩
    exact pythonRound_nonpos (mul_nonpos_of_nonpos_of_nonneg hq (by norm_num))

theorem fxNonpos_le_zero {d : Fx} (h : FxNonpos d) :
    Fx.le d (Fx.fin 0) = true := by
  rcases h with rfl | ⟨q, hq, rfl⟩
  · rfl
  · simp [Fx.le, hq]

theorem cummaxFrom_length (m : ℚ) (l : List ℚ) :
    (cummaxFrom m l).length = l.length := by
  induction l generalizing m with
  | nil => rfl
  | cons x xs ih => simp [cummaxFrom, ih]

theorem cumsumFrom_length (acc : ℚ) (l : List ℚ) :
    (cumsumFrom acc l).length = l.length := by
  induction l generalizing acc with
  | nil => rfl
  | cons x xs ih => simp [cumsumFrom, ih]

/-- On a non-decreasing portfolio series the running maximum coincides with
the value, so each ratio drawdown entry is 0 — or NaN at a zero value. -/
theorem zip_cummaxFrom_nondecr :
    ∀ (l : List ℚ) (m : ℚ), List.Chain' (· ≤ ·) l →
      (∀ z, l.head? = some z → m ≤ z) →
      List.zipWith (fun p mx => (fxDiv p mx).sub1) l (cummaxFrom m l)
        = l.map (fun x => if x = 0 then Fx.nan else Fx.fin 0) := by
  intro l
  induction l with
  | nil =>
    intro m _ _
    rfl
  | cons x xs ih =>
    intro m hchain hm
    have hmx : max m x = x := max_eq_right (hm x rfl)
    have hchain2 : List.Chain' (· ≤ ·) xs := hchain.tail
    have hm2 : ∀ z, xs.head? = some z → x ≤ z := by
      intro z hz
      cases xs with
      | nil => simp at hz
      | cons y ys =>
        simp only [List.head?_cons, Option.some.injEq] at hz
        subst hz
        exact (List.chain'_cons.mp hchain).1
    simp only [cummaxFrom, hmx, List.zipWith_cons_cons, List.map_cons]
    rw [ih x hchain2 hm2]
    congr 1
    by_cases hx : x = 0
    · subst hx
      simp [fxDiv, Fx.sub1]
    · rw [if_neg hx]
      unfold fxDiv
      rw [if_pos hx, div_self hx]
      norm_num [Fx.sub1]

theorem foldl_nan_fin0 :
    ∀ (l : List Fx) (acc : Fx), (∀ d ∈ l, d = Fx.nan ∨ d = Fx.fin 0) →
      (acc = Fx.nan ∨ acc = Fx.fin 0) →
      (acc = Fx.fin 0 ∨ ∃ d ∈ l, d = Fx.fin 0) →
      l.foldl fxMinStep acc = Fx.fin 0 := by
  intro l
  induction l with
  | nil =>
    intro acc _ _ hex
    rcases hex with h | ⟨d, hd, _⟩
    · exact h
    · simp at hd
  | cons d l ih =>
    intro acc hall hacc hex
    have hd0 : d = Fx.nan ∨ d = Fx.fin 0 := hall d (List.mem_cons_self d l)
    simp only [List.foldl_cons]
    refine ih _ (fun d2 h => hall d2 (List.mem_cons_of_mem _ h)) ?_ ?_
    · rcases hacc with rfl | rfl <;> rcases hd0 with rfl | rfl <;>
        simp [fxMinStep]
    · rcases hd0 with rfl | rfl
      · rcases hacc with rfl | rfl
        · rcases hex with h | ⟨d2, hd2, h0⟩
          · exact absurd h (by simp)
          · rcases List.mem_cons.mp hd2 with rfl | hmem
            · exact absurd h0 (by simp)
            · exact Or.inr ⟨d2, hmem, h0⟩
        · exact Or.inl rfl
      · rcases hacc with rfl | rfl
        · exact Or.inl rfl
        · exact Or.inl (by simp [fxMinStep])

theorem fxMinSkipna_nan_fin0 {l : List Fx}
    (hall : ∀ d ∈ l, d = Fx.nan ∨ d = Fx.fin 0)
    (hex : ∃ d ∈ l, d = Fx.fin 0) : fxMinSkipna l = Fx.fin 0 :=
  foldl_nan_fin0 l Fx.nan hall (Or.inl rfl) (Or.inr hex)

theorem zip_sub_cummaxFrom_nonpos :
    ∀ (l : List ℚ) (m : ℚ) (d : ℚ),
      d ∈ List.zipWith (· - ·) l (cummaxFrom m l) → d ≤ 0 := by
  intro l
  induction l with
  | nil =>
    intro m d hd
    simp at hd
  | cons x xs ih =>
    intro m d hd
    simp only [cummaxFrom, List.zipWith_cons_cons] at hd
    rcases List.mem_cons.mp hd with rfl | hmem
    · have := le_max_right m x
      linarith
    · exact ih (max m x) d hmem

theorem zip_sub_cummaxFrom_nondecr :
    ∀ (l : List ℚ) (m : ℚ), List.Chain' (· ≤ ·) l →
      (∀ z, l.head? = some z → m ≤ z) →
      List.zipWith (· - ·) l (cummaxFrom m l) = l.map (fun _ => (0 : ℚ)) := by
  intro l
  induction l with
  | nil =>
    intro m _ _
    rfl
  | cons x xs ih =>
    intro m hchain hm
    have hmx : max m x = x := max_eq_right (hm x rfl)
    have hchain2 : List.Chain' (· ≤ ·) xs := hchain.tail
    have hm2 : ∀ z, xs.head? = some z → x ≤ z := by
      intro z hz
      cases xs with
      | nil => simp at hz
      | cons y ys =>
        simp only [List.head?_cons, Option.some.injEq] at hz
        subst hz
        exact (List.chain'_cons.mp hchain).1
    simp only [cummaxFrom, hmx, List.zipWith_cons_cons, List.map_cons]
    rw [ih x hchain2 hm2]
    congr 1
    ring

/-- Claim C6 (corrected): provided the initial capital is positive and some
portfolio value is nonzero (some cumulative value differs from −1), the
aggregate reported max drawdown is ≤ 0 and equals exactly 0 on a
non-decreasing cumulative series; the periodic bucket drawdown satisfies
both properties for every non-empty bucket.  Without the proviso the
aggregate path divides 0/0 and reports NaN (see `C6_counterexample`). -/
theorem C6_max_drawdown_sign (s bucket : List (ℤ × ℚ)) (ic rf : ℚ) (tdpy : ℤ)
    (hic : 0 < ic) (hne : s ≠ []) (hnz : ∃ p ∈ s, p.2 ≠ -1)
    (hbne : bucket ≠ []) :
    Fx.le (topSummaryOfSeries s ic rf).max_drawdown_pct (Fx.fin 0) = true ∧
    (List.Chain' (· ≤ ·) (s.map Prod.snd) →
      (topSummaryOfSeries s ic rf).max_drawdown_pct = Fx.fin 0) ∧
    (periodRecord ic rf tdpy bucket).max_drawdown ≤ 0 ∧
    (List.Chain' (· ≤ ·) (cumsum (bucket.map Prod.snd)) →
      (periodRecord ic rf tdpy bucket).max_drawdown = 0) := by
  have hpvne : (s.map Prod.snd).map (fun v => ic * (1 + v)) ≠ [] := by
    intro h
    apply hne
    cases s with
    | nil => rfl
    | cons a as => simp at h
  have hpvex : ∃ y ∈ (s.map Prod.snd).map (fun v => ic * (1 + v)), y ≠ 0 := by
    rcases hnz with ⟨p, hp, hpne⟩
    refine ⟨ic * (1 + p.2), ?_, ?_⟩
    · exact List.mem_map_of_mem _ (List.mem_map_of_mem Prod.snd hp)
    · apply mul_ne_zero (ne_of_gt hic)
      intro h
      apply hpne
      linarith
  refine ⟨?_, ?_, ?_, ?_⟩
  · show Fx.le ((fxMinSkipna (List.zipWith (fun p m => (fxDiv p m).sub1)
        ((s.map Prod.snd).map (fun v => ic * (1 + v)))
        (cummax ((s.map Prod.snd).map (fun v => ic * (1 + v)))))).mul100.round2)
      (Fx.fin 0) = true
    exact fxNonpos_le_zero (fx_mul100_round2_nonpos (fxMinSkipna_nonpos
      (dds_good _ hpvne hpvex)))
  · intro hchain
    show (fxMinSkipna (List.zipWith (fun p m => (fxDiv p m).sub1)
        ((s.map Prod.snd).map (fun v => ic * (1 + v)))
        (cummax ((s.map Prod.snd).map (fun v => ic * (1 + v)))))).mul100.round2
      = Fx.fin 0
    have hpvchain : List.Chain' (· ≤ ·)
        ((s.map Prod.snd).map (fun v => ic * (1 + v))) := by
      refine List.chain'_map_of_chain' _ ?_ hchain
      intro a b hab
      have h1 : (1 : ℚ) + a ≤ 1 + b := by linarith
      exact mul_le_mul_of_nonneg_left h1 (le_of_lt hic)
    rcases hpv : (s.map Prod.snd).map (fun v => ic * (1 + v)) with _ | ⟨x, xs⟩
    · exact absurd hpv hpvne
    · rw [hpv] at hpvchain hpvex
      have hdds : List.zipWith (fun p m => (fxDiv p m).sub1) (x :: xs)
          (cummax (x :: xs))
          = (x :: xs).map (fun y => if y = 0 then Fx.nan else Fx.fin 0) := by
        show List.zipWith (fun p m => (fxDiv p m).sub1) (x :: xs)
          (cummaxFrom x (x :: xs))
          = (x :: xs).map (fun y => if y = 0 then Fx.nan else Fx.fin 0)
        refine zip_cummaxFrom_nondecr (x :: xs) x hpvchain ?_
        intro z hz
        simp only [List.head?_cons, Option.some.injEq] at hz
        subst hz
        exact le_rfl
      rw [hdds]
      have hall : ∀ d ∈ (x :: xs).map (fun y => if y = 0 then Fx.nan else Fx.fin 0),
          d = Fx.nan ∨ d = Fx.fin 0 := by
        intro d hd
        rcases List.mem_map.mp hd with ⟨y, _, rfl⟩
        by_cases hy : y = 0
        · simp [hy]
        · simp [hy]
      have hex2 : ∃ d ∈ (x :: xs).map (fun y => if y = 0 then Fx.nan else Fx.fin 0),
          d = Fx.fin 0 := by
        rcases hpvex with ⟨y, hy, hyne⟩
        exact ⟨if y = 0 then Fx.nan else Fx.fin 0, List.mem_map_of_mem _ hy,
          by simp [hyne]⟩
      rw [fxMinSkipna_nan_fin0 hall hex2]
      show Fx.fin (pythonRound 2 ((0 : ℚ) * 100)) = Fx.fin 0
      rw [zero_mul, pythonRound_zero]
  · show pythonRound 6 (if (List.zipWith (· - ·) (cumsum (bucket.map Prod.snd))
        (cummax (cumsum (bucket.map Prod.snd)))).isEmpty = true then 0
      else listMin (List.zipWith (· - ·) (cumsum (bucket.map Prod.snd))
        (cummax (cumsum (bucket.map Prod.snd))))) ≤ 0
    apply pythonRound_nonpos
    rcases hc : cumsum (bucket.map Prod.snd) with _ | ⟨y, ys⟩
    · simp
    · have hlen : List.zipWith (· - ·) (y :: ys) (cummax (y :: ys)) ≠ [] := by
        show List.zipWith (· - ·) (y :: ys) (cummaxFrom y (y :: ys)) ≠ []
        simp [cummaxFrom]
      rw [if_neg (by simpa [List.isEmpty_iff] using hlen)]
      refine listMin_nonpos_of_all hlen ?_
      intro d hd
      exact zip_sub_cummaxFrom_nonpos (y :: ys) y d hd
  · intro hchain
    show pythonRound 6 (if (List.zipWith (· - ·) (cumsum (bucket.map Prod.snd))
        (cummax (cumsum (bucket.map Prod.snd)))).isEmpty = true then 0
      else listMin (List.zipWith (· - ·) (cumsum (bucket.map Prod.snd))
        (cummax (cumsum (bucket.map Prod.snd))))) = 0
    rcases hc : cumsum (bucket.map Prod.snd) with _ | ⟨y, ys⟩
    · exfalso
      apply hbne
      have hlen := cumsumFrom_length 0 (bucket.map Prod.snd)
      rw [show cumsum (bucket.map Prod.snd) = cumsumFrom 0 (bucket.map Prod.snd)
        from rfl] at hc
      rw [hc] at hlen
      cases bucket with
      | nil => rfl
      | cons e es => simp at hlen
    · rw [hc] at hchain
      have hdd : List.zipWith (· - ·) (y :: ys) (cummax (y :: ys))
          = (y :: ys).map (fun _ => (0 : ℚ)) := by
        show List.zipWith (· - ·) (y :: ys) (cummaxFrom y (y :: ys)) = _
        refine zip_sub_cummaxFrom_nondecr (y :: ys) y hchain ?_
        intro z hz
        simp only [List.head?_cons, Option.some.injEq] at hz
        subst hz
        exact le_rfl
      rw [hdd]
      have hmin : listMin ((y :: ys).map (fun _ => (0 : ℚ))) = 0 := by
        have hm := listMin_mem (l := (y :: ys).map (fun _ => (0 : ℚ))) (by simp)
        rcases List.mem_map.mp hm with ⟨z, _, hz⟩
        exact hz.symm
      have hne2 : ((y :: ys).map (fun _ => (0 : ℚ))) ≠ [] := by simp
      rw [if_neg (by simp [List.isEmpty_iff]), hmin, pythonRound_zero]

theorem C6_max_drawdown_sign_witness :
    (0 : ℚ) < 100000 ∧
    (∃ p ∈ [((0 : ℤ), (1/100 : ℚ)), (1, 1/200)], p.2 ≠ -1) ∧
    (Fx.le (topSummaryOfSeries [((0 : ℤ), (1/100 : ℚ)), (1, 1/200)] 100000
        (1/50)).max_drawdown_pct (Fx.fin 0) = true ∧
      (List.Chain' (· ≤ ·) (([((0 : ℤ), (1/100 : ℚ)), (1, 1/200)]).map Prod.snd) →
        (topSummaryOfSeries [((0 : ℤ), (1/100 : ℚ)), (1, 1/200)] 100000
          (1/50)).max_drawdown_pct = Fx.fin 0) ∧
      (periodRecord 100000 (1/50) 252 [((0 : ℤ), (1/2 : ℚ)), (1, -1/4)]).max_drawdown ≤ 0 ∧
      (List.Chain' (· ≤ ·)
          (cumsum (([((0 : ℤ), (1/2 : ℚ)), (1, -1/4)]).map Prod.snd)) →
        (periodRecord 100000 (1/50) 252
          [((0 : ℤ), (1/2 : ℚ)), (1, -1/4)]).max_drawdown = 0)) :=
  ⟨by norm_num, ⟨((0 : ℤ), (1/100 : ℚ)), by simp, by norm_num⟩,
    C6_max_drawdown_sign [((0 : ℤ), (1/100 : ℚ)), (1, 1/200)]
      [((0 : ℤ), (1/2 : ℚ)), (1, -1/4)] 100000 (1/50) 252 (by norm_num) (by simp)
      ⟨((0 : ℤ), (1/100 : ℚ)), by simp, by norm_num⟩ (by simp)⟩

/-- Claim C6, counterexample to the claim as stated: on the (trivially
non-decreasing) one-element series with cumulative value −1 the portfolio
value is 0, the drawdown computation divides 0/0, and the reported maximum
drawdown is NaN — neither ≤ 0 nor equal to 0. -/
theorem C6_counterexample :
    (generate_top_level_summary ⟨[("PnL", [((0 : ℤ), (-1 : ℚ))])]⟩ "PnL" 100000
        (1/50)).map (fun r => r.max_drawdown_pct) = .ok Fx.nan ∧
    Fx.le Fx.nan (Fx.fin 0) = false ∧
    Fx.nan ≠ Fx.fin 0 ∧
    List.Chain' (· ≤ ·) (([((0 : ℤ), (-1 : ℚ))]).map Prod.snd) := by
  refine ⟨?_, rfl, by simp, by simp⟩
  norm_num [generate_top_level_summary, topSummaryOfSeries, List.lookup,
    Except.map, cummax, cummaxFrom, fxDiv, Fx.sub1, Fx.mul100, Fx.round2,
    fxMinSkipna, fxMinStep]

/-! ## Claim C8 -/

theorem pythonRound_two_hundred : pythonRound 2 (100 : ℚ) = 100 := by
  have h := pythonRound_intCast 2 10000
  norm_num at h
  exact h

theorem pythonRound_four_one : pythonRound 4 (1 : ℚ) = 1 := by
  have h := pythonRound_intCast 4 10000
  norm_num at h
  exact h

/-- Claim C8 (corrected): the reported win rate lies in [0, 100] for the
aggregate and in [0, 1] for each bucket, counting only strictly positive
per-step returns, and equals 100 (resp. 1) whenever every per-step return
is strictly positive; the unrounded ratio equals 100 (resp. 1) exactly in
that case, but the rounded reported value can reach 100 with a non-positive
step present (see `C8_counterexample`). -/
theorem C8_win_rate_bounds (s bucket : List (ℤ × ℚ)) (ic rf : ℚ) (tdpy : ℤ)
    (hne : s ≠ []) (hbne : bucket ≠ []) :
    (0 ≤ (topSummaryOfSeries s ic rf).win_rate_pct ∧
      (topSummaryOfSeries s ic rf).win_rate_pct ≤ 100) ∧
    ((∀ r ∈ dailyReturns (s.map Prod.snd), 0 < r) →
      (topSummaryOfSeries s ic rf).win_rate_pct = 100) ∧
    ((((dailyReturns (s.map Prod.snd)).countP (fun r => decide (0 < r)) : ℚ) /
        ((s.map Prod.snd).length : ℚ) * 100 = 100) ↔
      ∀ r ∈ dailyReturns (s.map Prod.snd), 0 < r) ∧
    (0 ≤ (periodRecord ic rf tdpy bucket).win_rate ∧
      (periodRecord ic rf tdpy bucket).win_rate ≤ 1) ∧
    ((∀ r ∈ bucket.map Prod.snd, 0 < r) →
      (periodRecord ic rf tdpy bucket).win_rate = 1) ∧
    ((((bucket.map Prod.snd).countP (fun r => decide (0 < r)) : ℚ) /
        ((bucket.map Prod.snd).length : ℚ) = 1) ↔
      ∀ r ∈ bucket.map Prod.snd, 0 < r) := by
  have hn : 0 < (s.map Prod.snd).length := by
    rw [List.length_map]
    exact List.length_pos.mpr hne
  have hnq : (0 : ℚ) < ((s.map Prod.snd).length : ℚ) := by exact_mod_cast hn
  have hple : (dailyReturns (s.map Prod.snd)).countP (fun r => decide (0 < r))
      ≤ (s.map Prod.snd).length := by
    rw [← dailyReturns_length (s.map Prod.snd)]
    exact List.countP_le_length _
  have hratio_le : ((dailyReturns (s.map Prod.snd)).countP
      (fun r => decide (0 < r)) : ℚ) / ((s.map Prod.snd).length : ℚ) ≤ 1 := by
    rw [div_le_one hnq]
    exact_mod_cast hple
  have hratio_nonneg : (0 : ℚ) ≤ ((dailyReturns (s.map Prod.snd)).countP
      (fun r => decide (0 < r)) : ℚ) / ((s.map Prod.snd).length : ℚ) := by
    positivity
  have hraw_iff : (((dailyReturns (s.map Prod.snd)).countP
        (fun r => decide (0 < r)) : ℚ) / ((s.map Prod.snd).length : ℚ) = 1) ↔
      ∀ r ∈ dailyReturns (s.map Prod.snd), 0 < r := by
    rw [div_eq_one_iff_eq (ne_of_gt hnq)]
    rw [Nat.cast_inj]
    rw [show (s.map Prod.snd).length = (dailyReturns (s.map Prod.snd)).length
      from (dailyReturns_length _).symm]
    rw [List.countP_eq_length]
    constructor
    · intro h r hr
      have := h r hr
      simpa using this
    · intro h r hr
      simpa using h r hr
  have hbn : 0 < (bucket.map Prod.snd).length := by
    rw [List.length_map]
    exact List.length_pos.mpr hbne
  have hbnq : (0 : ℚ) < ((bucket.map Prod.snd).length : ℚ) := by exact_mod_cast hbn
  have hbple : (bucket.map Prod.snd).countP (fun r => decide (0 < r))
      ≤ (bucket.map Prod.snd).length := List.countP_le_length _
  have hbratio_le : ((bucket.map Prod.snd).countP
      (fun r => decide (0 < r)) : ℚ) / ((bucket.map Prod.snd).length : ℚ) ≤ 1 := by
    rw [div_le_one hbnq]
    exact_mod_cast hbple
  have hbratio_nonneg : (0 : ℚ) ≤ ((bucket.map Prod.snd).countP
      (fun r => decide (0 < r)) : ℚ) / ((bucket.map Prod.snd).length : ℚ) := by
    positivity
  have hbraw_iff : (((bucket.map Prod.snd).countP
        (fun r => decide (0 < r)) : ℚ) / ((bucket.map Prod.snd).length : ℚ) = 1) ↔
      ∀ r ∈ bucket.map Prod.snd, 0 < r := by
    rw [div_eq_one_iff_eq (ne_of_gt hbnq)]
    rw [Nat.cast_inj]
    rw [List.countP_eq_length]
    constructor
    · intro h r hr
      have := h r hr
      simpa using this
    · intro h r hr
      simpa using h r hr
  refine ⟨⟨?_, ?_⟩, ?_, ?_, ⟨?_, ?_⟩, ?_, ?_⟩
  · show 0 ≤ pythonRound 2 (((dailyReturns (s.map Prod.snd)).countP
      (fun r => decide (0 < r)) : ℚ) / ((s.map Prod.snd).length : ℚ) * 100)
    exact pythonRound_nonneg (by positivity)
  · show pythonRound 2 (((dailyReturns (s.map Prod.snd)).countP
      (fun r => decide (0 < r)) : ℚ) / ((s.map Prod.snd).length : ℚ) * 100) ≤ 100
    calc pythonRound 2 _ ≤ pythonRound 2 100 :=
          pythonRound_mono (by nlinarith [hratio_le, hratio_nonneg])
      _ = 100 := pythonRound_two_hundred
  · intro hall
    show pythonRound 2 (((dailyReturns (s.map Prod.snd)).countP
      (fun r => decide (0 < r)) : ℚ) / ((s.map Prod.snd).length : ℚ) * 100) = 100
    have h1 : ((dailyReturns (s.map Prod.snd)).countP
        (fun r => decide (0 < r)) : ℚ) / ((s.map Prod.snd).length : ℚ) = 1 :=
      hraw_iff.mpr hall
    rw [h1, one_mul, pythonRound_two_hundred]
  · constructor
    · intro h
      apply hraw_iff.mp
      linarith [h]
    · intro hall
      rw [hraw_iff.mpr hall, one_mul]
  · show 0 ≤ pythonRound 4 (((bucket.map Prod.snd).countP
      (fun r => decide (0 < r)) : ℚ) / ((bucket.map Prod.snd).length : ℚ))
    exact pythonRound_nonneg hbratio_nonneg
  · show pythonRound 4 (((bucket.map Prod.snd).countP
      (fun r => decide (0 < r)) : ℚ) / ((bucket.map Prod.snd).length : ℚ)) ≤ 1
    calc pythonRound 4 _ ≤ pythonRound 4 1 := pythonRound_mono hbratio_le
      _ = 1 := pythonRound_four_one
  · intro hall
    show pythonRound 4 (((bucket.map Prod.snd).countP
      (fun r => decide (0 < r)) : ℚ) / ((bucket.map Prod.snd).length : ℚ)) = 1
    rw [hbraw_iff.mpr hall, pythonRound_four_one]
  · exact hbraw_iff

theorem C8_win_rate_bounds_witness :
    ([((0 : ℤ), (1 : ℚ))] : List (ℤ × ℚ)) ≠ [] ∧
    ((0 ≤ (topSummaryOfSeries [((0 : ℤ), (1 : ℚ))] 100000 (1/50)).win_rate_pct ∧
      (topSummaryOfSeries [((0 : ℤ), (1 : ℚ))] 100000 (1/50)).win_rate_pct ≤ 100) ∧
    ((∀ r ∈ dailyReturns (([((0 : ℤ), (1 : ℚ))]).map Prod.snd), 0 < r) →
      (topSummaryOfSeries [((0 : ℤ), (1 : ℚ))] 100000 (1/50)).win_rate_pct = 100) ∧
    ((((dailyReturns (([((0 : ℤ), (1 : ℚ))]).map Prod.snd)).countP
          (fun r => decide (0 < r)) : ℚ) /
        ((([((0 : ℤ), (1 : ℚ))]).map Prod.snd).length : ℚ) * 100 = 100) ↔
      ∀ r ∈ dailyReturns (([((0 : ℤ), (1 : ℚ))]).map Prod.snd), 0 < r) ∧
    (0 ≤ (periodRecord 100000 (1/50) 252 [((0 : ℤ), (1 : ℚ))]).win_rate ∧
      (periodRecord 100000 (1/50) 252 [((0 : ℤ), (1 : ℚ))]).win_rate ≤ 1) ∧
    ((∀ r ∈ ([((0 : ℤ), (1 : ℚ))]).map Prod.snd, 0 < r) →
      (periodRecord 100000 (1/50) 252 [((0 : ℤ), (1 : ℚ))]).win_rate = 1) ∧
    (((((([((0 : ℤ), (1 : ℚ))]).map Prod.snd).countP
          (fun r => decide (0 < r))) : ℚ) /
        ((([((0 : ℤ), (1 : ℚ))]).map Prod.snd).length : ℚ) = 1) ↔
      ∀ r ∈ ([((0 : ℤ), (1 : ℚ))]).map Prod.snd, 0 < r)) :=
  ⟨by simp,
    C8_win_rate_bounds [((0 : ℤ), (1 : ℚ))] [((0 : ℤ), (1 : ℚ))] 100000 (1/50)
      252 (by simp) (by simp)⟩

theorem countP_replicate (p : ℚ → Bool) (n : ℕ) (a : ℚ) :
    (List.replicate n a).countP p = if p a then n else 0 := by
  induction n with
  | zero => simp
  | succ n ih =>
    rw [List.replicate_succ]
    by_cases hpa : p a <;> simp [List.countP_cons, hpa, ih]

theorem topSummary_win_rate_eq (s : List (ℤ × ℚ)) (ic rf : ℚ) :
    (topSummaryOfSeries s ic rf).win_rate_pct =
      pythonRound 2 (((dailyReturns (s.map Prod.snd)).countP
        (fun r => decide (0 < r)) : ℚ) / ((s.map Prod.snd).length : ℚ) * 100) := rfl

/-- Claim C8, counterexample to the claim as stated: on a 20000-step series
with 19999 strictly positive per-step returns and one negative one, the
unrounded win rate is 99.995 %, which Python rounds (half-to-even at 2
decimals) to exactly 100.0 — so the reported win rate equals 100 although
not every per-step return is positive. -/
theorem C8_counterexample :
    (topSummaryOfSeries ((cumsum ((-1 : ℚ) :: List.replicate 19999 1)).map
        (fun q => ((0 : ℤ), q))) 100000 (1/50)).win_rate_pct = 100 ∧
    (-1 : ℚ) ∈ dailyReturns ((((cumsum ((-1 : ℚ) :: List.replicate 19999 1)).map
        (fun q => ((0 : ℤ), q))).map Prod.snd)) ∧
    ¬ (0 : ℚ) < -1 := by
  have hvals : (((cumsum ((-1 : ℚ) :: List.replicate 19999 1)).map
      (fun q => ((0 : ℤ), q))).map Prod.snd)
      = cumsum ((-1 : ℚ) :: List.replicate 19999 1) := by
    rw [List.map_map]
    exact List.map_id' _
  have hdr : dailyReturns (cumsum ((-1 : ℚ) :: List.replicate 19999 1))
      = (-1 : ℚ) :: List.replicate 19999 1 := dailyReturns_cumsum _
  have hcount : ((-1 : ℚ) :: List.replicate 19999 1).countP
      (fun r => decide (0 < r)) = 19999 := by
    rw [List.countP_cons]
    rw [countP_replicate]
    norm_num
  have hlen : (cumsum ((-1 : ℚ) :: List.replicate 19999 1)).length = 20000 := by
    show (cumsumFrom 0 ((-1 : ℚ) :: List.replicate 19999 1)).length = 20000
    rw [cumsumFrom_length, List.length_cons, List.length_replicate]
  refine ⟨?_, ?_, by norm_num⟩
  · rw [topSummary_win_rate_eq, hvals, hdr, hcount, hlen]
    have hfloor : ⌊(19999 : ℕ) / (20000 : ℕ) * 100 * (10 : ℚ) ^ 2⌋ = 9999 := by
      apply Int.floor_eq_iff.mpr
      constructor <;> push_cast <;> norm_num
    unfold pythonRound roundHalfEven
    push_cast at hfloor ⊢
    rw [hfloor]
    rw [if_neg (by norm_num), if_neg (by norm_num),
      if_neg (by norm_num [Int.even_iff])]
    norm_num
  · rw [hvals, hdr]
    exact List.mem_cons_self _ _


/-! ## Sanity lemmas for the a·√b encodings

These tie each `QR` pair used in the summary builders to the literal
real-valued formula of the source line it embeds. -/

/-- Aggregate Sharpe encoding (source line 55): for positive variance `v`,
the value of the pair `QR.mk m (252/v)` is `m / std * sqrt 252` with
`std = sqrt v`. -/
theorem qr_sharpe_toReal (m v : ℝ) (hv : 0 < v) :
    m * Real.sqrt (252 / v) = m / Real.sqrt v * Real.sqrt 252 := by
  have h1 : Real.sqrt (252 / v) = Real.sqrt 252 / Real.sqrt v := by
    rw [Real.sqrt_div' 252 (le_of_lt hv)]
  rw [h1]
  ring

theorem qr_sharpe_toReal_witness :
    (2 : ℝ) * Real.sqrt (252 / 4) = 2 / Real.sqrt 4 * Real.sqrt 252 :=
  qr_sharpe_toReal 2 4 (by norm_num)

/-- Aggregate annualized-volatility encoding (source line 49): for
nonnegative variance `v`, the value of `QR.scaleQ 100 (QR.mulSqrt ⟨1, v⟩ 252)`
is `sqrt v * sqrt 252 * 100`. -/
theorem qr_annvol_toReal (v : ℝ) (hv : 0 ≤ v) :
    (100 : ℝ) * Real.sqrt (v * 252) = Real.sqrt v * Real.sqrt 252 * 100 := by
  rw [Real.sqrt_mul hv]
  ring

theorem qr_annvol_toReal_witness :
    (100 : ℝ) * Real.sqrt (9 * 252) = Real.sqrt 9 * Real.sqrt 252 * 100 :=
  qr_annvol_toReal 9 (by norm_num)

/-- Periodic Sharpe encoding (source lines 151–153): dividing by the value
`a·√b` multiplies by `√b/(a·b)`. -/
theorem qr_div_toReal (x a b : ℝ) (hb : 0 < b) (ha : a ≠ 0) :
    x / (a * b) * Real.sqrt b = x / (a * Real.sqrt b) := by
  have hsb : Real.sqrt b ≠ 0 := ne_of_gt (Real.sqrt_pos.mpr hb)
  have hsq : Real.sqrt b * Real.sqrt b = b := Real.mul_self_sqrt (le_of_lt hb)
  have hbne : b ≠ 0 := ne_of_gt hb
  field_simp
  linear_combination x * a * hsq

theorem qr_div_toReal_witness :
    (5 : ℝ) / (3 * 4) * Real.sqrt 4 = 5 / (3 * Real.sqrt 4) :=
  qr_div_toReal 5 3 4 (by norm_num) (by norm_num)

/-- Bias-corrected skewness encoding (`pandasSkew`/`scipySkew`): for
positive `m2` the value of `QR.mk (n·m3/((n−2)·m2²)) ((n−1)·m2)` is
`n·√(n−1)/(n−2) · m3/m2^(3/2)`. -/
theorem qr_skew_toReal (n m2 m3 : ℝ) (hm2 : 0 < m2) (hn : (0 : ℝ) ≤ n - 1) :
    n * m3 / ((n - 2) * m2 ^ 2) * Real.sqrt ((n - 1) * m2)
      = n * Real.sqrt (n - 1) / (n - 2) * (m3 / (m2 * Real.sqrt m2)) := by
  rw [Real.sqrt_mul hn]
  have hsb : Real.sqrt m2 ≠ 0 := ne_of_gt (Real.sqrt_pos.mpr hm2)
  have hsq : Real.sqrt m2 * Real.sqrt m2 = m2 := Real.mul_self_sqrt (le_of_lt hm2)
  have hm2ne : m2 ≠ 0 := ne_of_gt hm2
  rcases eq_or_ne (n - 2) 0 with h2 | h2
  · rw [h2]
    simp
  · field_simp
    ring_nf
    rw [Real.sq_sqrt (le_of_lt hm2)]
    ring

theorem qr_skew_toReal_witness :
    (5 : ℝ) * 7 / ((5 - 2) * 2 ^ 2) * Real.sqrt ((5 - 1) * 2)
      = 5 * Real.sqrt (5 - 1) / (5 - 2) * (7 / (2 * Real.sqrt 2)) :=
  qr_skew_toReal 5 2 7 (by norm_num) (by norm_num)
